import Mathlib

/-!
Shallow embedding of the text-to-table parsing engine of the
`karutt/text-to-table` Figma plugin, together with proofs checking the
claims of its natural-language specification.

JavaScript strings are modelled as `List Char` (one element per Unicode
scalar).  JavaScript `undefined` for an optional boolean field is modelled
as `false` (no code in the repository distinguishes `undefined` from
`false`: both are only used as truthy/falsy), and an absent optional
object field is modelled as `none`.  Error records keep the `line` and
`code` fields; the human-readable `message` string (irrelevant to every
claim) is not modelled.  `parseFloat` results are modelled as exact
rationals; no claim depends on the floating-point value.

Sources embedded (paths in the repository snapshot):
 * `src/unnamed/part_001`  — `MarkdownParser` (the feature-complete
   variant with cell formatting and multi-table support);
 * `src/src/ui/components/FormatSelector.tsx` (second section)
   — `CSVParser`;
 * `src/unnamed/part_002`  — `TSVParser`, `detectFormat`;
 * `src/src/parsers/markdown-parser.ts` (second section)
   — `detectFormatFromText`;
 * `src/src/types/index.ts` — shared result/option/error types.
-/

namespace TextToTable

/-- JavaScript strings are modelled as lists of characters. -/
abbrev Str := List Char

/-- Shorthand turning a Lean string literal into the `Str` model. -/
def str (s : String) : Str := s.toList

/-- Characters treated as whitespace by JavaScript `String.prototype.trim`
and by the regex class `\s` (WhiteSpace plus LineTerminator). -/
def isJsWs (c : Char) : Bool :=
  c = ' ' || c = '\t' || c = '\n' || c = '\r' ||
  c = '\x0b' || c = '\x0c' || c = '\u00A0' || c = '\uFEFF' ||
  c = '\u1680' || (('\u2000' ≤ c) && (c ≤ '\u200A')) ||
  c = '\u2028' || c = '\u2029' || c = '\u202F' || c = '\u205F' || c = '\u3000'

/-- JavaScript `text.trim()`. -/
def jsTrim (l : Str) : Str :=
  ((l.dropWhile isJsWs).reverse.dropWhile isJsWs).reverse

/-- JavaScript `text.split(sep)` for a single-character separator:
`''.split(c) = ['']`, separators produce empty fields. -/
def jsSplitChar (sep : Char) : List Char → List (List Char)
  | [] => [[]]
  | c :: rest =>
    if c = sep then [] :: jsSplitChar sep rest
    else
      match jsSplitChar sep rest with
      | [] => [[c]]
      | l :: ls => (c :: l) :: ls

/-- JavaScript `text.split('\n')`. -/
def splitNl (l : Str) : List (List Char) := jsSplitChar '\n' l

/-- JavaScript `Array.prototype.join('\n')`. -/
def joinNl (ls : List Str) : Str := (ls.intersperse ['\n']).flatten

/-- JavaScript `text.includes(sub)` (contiguous-substring test). -/
def jsIncludes (l sub : Str) : Bool := l.tails.any (fun t => sub.isPrefixOf t)

/-- Number of occurrences of a character, as in `(s.match(/c/g) || []).length`. -/
def countChar (c : Char) (l : Str) : Nat := (l.filter (· = c)).length

/-- Output format tag (`'csv' | 'tsv' | 'markdown'`, from `src/src/types/index.ts`). -/
inductive Format where
  | csv
  | tsv
  | markdown
deriving DecidableEq, Repr

/-- Error codes actually raised by the parsers (subset of `ERROR_CODES` in
`src/src/types/index.ts` that the embedded code can produce). -/
inductive ErrCode where
  | EMPTY_DATA
  | COLUMN_LIMIT_EXCEEDED
  | PARSE_ERROR
deriving DecidableEq, Repr

/-- One entry of the `errors` array: `{line, message, code}` with the
message text not modelled. -/
structure ParseErr where
  line : Nat
  code : ErrCode
deriving DecidableEq, Repr

/-- The `metadata` object of every parse result. -/
structure Metadata where
  rowCount : Nat
  columnCount : Nat
  format : Format
deriving DecidableEq, Repr

/-- `ParseResult` from `src/src/types/index.ts` (for the delimited parsers). -/
structure ParseResult where
  data : List (List Str)
  hasHeader : Bool
  errors : List ParseErr
  metadata : Metadata
deriving DecidableEq, Repr

/-- `ParseOptions` from `src/src/types/index.ts`; `none` models an absent
key, whose default is filled in by destructuring inside each `parse`. -/
structure ParseOptions where
  hasHeader : Option Bool := none
  maxRows : Option Nat := none
  maxColumns : Option Nat := none
  trimWhitespace : Option Bool := none
deriving DecidableEq, Repr

namespace CSVParser

/-- One step of `CSVParser.parseLine`'s scan: `acc` is the list of finished
cells in reverse-free order handled by the caller; `current` is the cell
being accumulated; `inQuotes` is the quote state. Mirrors the `while` loop
of `parseLine` in `FormatSelector.tsx` (second section). -/
def scanLine (delimiter : Char) (trimWs : Bool) : List Char → Bool → Str → List Str
  | [], _, current => [if trimWs then jsTrim current else current]
  | '"' :: '"' :: rest2, true, current =>
    scanLine delimiter trimWs rest2 true (current ++ ['"'])
  | '"' :: rest, inQuotes, current => scanLine delimiter trimWs rest (!inQuotes) current
  | c :: rest, inQuotes, current =>
    if c = delimiter && !inQuotes then
      (if trimWs then jsTrim current else current) :: scanLine delimiter trimWs rest inQuotes []
    else scanLine delimiter trimWs rest inQuotes (current ++ [c])

/-- `CSVParser.parseLine`. -/
def parseLine (delimiter : Char) (trimWs : Bool) (line : Str) : List Str :=
  scanLine delimiter trimWs line false []

/-- The non-blank lines of the input, as computed by
`text.split('\n').filter(line => line.trim())` (original lines kept). -/
def csvLines (text : Str) : List Str :=
  (splitNl text).filter (fun l => !(jsTrim l).isEmpty)

/-- The row loop of `CSVParser.parse` over the (0-based) numbered lines
already truncated to `maxRows`: over-wide rows are recorded as
`COLUMN_LIMIT_EXCEEDED` (1-based line) and dropped. `parseLine` is total,
so the `try/catch` around it is dead code and `PARSE_ERROR` is never
produced here. -/
def csvLoop (delimiter : Char) (trimWs : Bool) (maxCols : Nat) :
    List (Nat × Str) → List (List Str) × List ParseErr
  | [] => ([], [])
  | (i, line) :: rest =>
    let row := parseLine delimiter trimWs line
    let r := csvLoop delimiter trimWs maxCols rest
    if maxCols < row.length then (r.1, ⟨i + 1, .COLUMN_LIMIT_EXCEEDED⟩ :: r.2)
    else (row :: r.1, r.2)

/-- `CSVParser.parse` (constructed with the given single-character
`delimiter`). -/
def parse (delimiter : Char) (text : Str) (options : ParseOptions := {}) : ParseResult :=
  let hasHeader := options.hasHeader.getD true
  let maxRows := options.maxRows.getD 100
  let maxColumns := options.maxColumns.getD 20
  let trimWhitespace := options.trimWhitespace.getD true
  let fmt := if delimiter = '\t' then Format.tsv else Format.csv
  if (jsTrim text).isEmpty then
    { data := [], hasHeader := false, errors := [⟨1, .EMPTY_DATA⟩],
      metadata := ⟨0, 0, fmt⟩ }
  else
    let numbered := (csvLines text).enum.take maxRows
    let r := csvLoop delimiter trimWhitespace maxColumns numbered
    { data := r.1, hasHeader := hasHeader, errors := r.2,
      metadata := ⟨r.1.length, (r.1.headD []).length, fmt⟩ }

/-- `CSVParser.validate`.  The source splits the text with `split('')`
(into single characters), filters out the whitespace ones, and asks
whether any of these one-character "lines" includes the delimiter. -/
def validate (delimiter : Char) (text : Str) : Bool :=
  if (jsTrim text).isEmpty then false
  else
    let lines := (text.map (fun c => [c])).filter (fun l => !(jsTrim l).isEmpty)
    decide (0 < lines.length) && lines.any (fun l => jsIncludes l [delimiter])

end CSVParser

namespace TSVParser

/-- `TSVParser.parse`: delegates to the CSV engine with a tab delimiter and
overwrites `metadata.format` with `'tsv'` (`src/unnamed/part_002`). -/
def parse (text : Str) (options : ParseOptions := {}) : ParseResult :=
  let result := CSVParser.parse '\t' text options
  { result with metadata := { result.metadata with format := Format.tsv } }

/-- `TSVParser.validate` (line-based, unlike `CSVParser.validate`). -/
def validate (text : Str) : Bool :=
  if (jsTrim text).isEmpty then false
  else
    let lines := (splitNl text).filter (fun l => !(jsTrim l).isEmpty)
    decide (0 < lines.length) && lines.any (fun l => jsIncludes l ['\t'])

end TSVParser

/-- `detectFormat` from `src/unnamed/part_002`.  The source splits the
trimmed text with `split('')` into single characters before applying the
per-"line" table-row test. -/
def detectFormat (text : Str) : Format :=
  let trimmed := jsTrim text
  if trimmed.isEmpty then .csv
  else
    let lines := ((trimmed.map (fun c => [c])).map jsTrim).filter (fun l => !l.isEmpty)
    if lines.any (fun l => l.headD ' ' = '|' && l.getLastD ' ' = '|' && decide (2 < l.length)) then
      .markdown
    else if jsIncludes trimmed ['\t'] then .tsv
    else .csv

/-- The regex `^\s*\|[\s\-:|]+\|\s*$` applied to an already-trimmed line:
a pipe at both ends with a non-empty interior limited to whitespace,
dashes, colons and pipes. -/
def sepShapeLine (t : Str) : Bool :=
  t.headD ' ' = '|' && t.getLastD ' ' = '|' && decide (3 ≤ t.length) &&
  ((t.drop 1).dropLast).all (fun c => isJsWs c || c = '-' || c = ':' || c = '|')

/-- The pipe-delimited row test of `detectFormatFromText` applied to a
trimmed line: pipes at both ends and at least three pipes in total. -/
def pipeRowLine (t : Str) : Bool :=
  t.headD ' ' = '|' && t.getLastD ' ' = '|' && decide (3 ≤ countChar '|' t)

/-- The non-blank lines examined by `detectFormatFromText`
(`text.trim().split('\n').filter(line => line.trim().length > 0)`). -/
def dfLines (text : Str) : List Str :=
  (splitNl (jsTrim text)).filter (fun l => decide (0 < (jsTrim l).length))

/-- `detectFormatFromText` from the second section of
`src/src/parsers/markdown-parser.ts`.  Average counts `>= 1` are modelled
as `sum >= number of lines` (the division is exact for these tests). -/
def detectFormatFromText (text : Str) : Format :=
  if (jsTrim text).isEmpty then .csv
  else
    let lines := dfLines text
    if lines.isEmpty then .csv
    else
      let hasMarkdownTableSeparator := lines.any (fun l => sepShapeLine (jsTrim l))
      let hasMarkdownTableRows :=
        decide (2 ≤ (lines.filter (fun l => pipeRowLine (jsTrim l))).length)
      if hasMarkdownTableSeparator && hasMarkdownTableRows then .markdown
      else if lines.any (fun l => jsIncludes l ['\t']) &&
          decide (lines.length ≤ (lines.map (countChar '\t')).sum) then .tsv
      else if lines.any (fun l => jsIncludes l [',']) &&
          decide (lines.length ≤ (lines.map (countChar ',')).sum) then .csv
      else .csv

/-- Column alignments derived from a Markdown separator row. -/
inductive Alignment where
  | left
  | center
  | right
deriving DecidableEq, Repr

/-- One span of a cell's display text sharing one formatting treatment
(the element type of `CellFormat.segments`).  The source's `end` field is
named `endP` here (`end` is reserved in Lean). -/
structure Segment where
  text : Str
  start : Nat
  endP : Nat
  isBold : Bool := false
  isItalic : Bool := false
  isLink : Bool := false
  linkUrl : Option Str := none
deriving DecidableEq, Repr, Inhabited

/-- `CellFormat` from `src/unnamed/part_001`. -/
structure CellFormat where
  text : Str
  isBold : Bool := false
  isItalic : Bool := false
  isLink : Bool := false
  linkUrl : Option Str := none
  isImage : Bool := false
  imageUrl : Option Str := none
  imageAlt : Option Str := none
  isNumeric : Bool := false
  currency : Option Str := none
  unit : Option Str := none
  numericValue : Option ℚ := none
  segments : Option (List Segment) := none
deriving DecidableEq, Repr, Inhabited

/-- One element of `multipleTablesData`. -/
structure MTableEntry where
  data : List (List Str)
  alignments : List Alignment
  cellFormats : List (List CellFormat)
  hasHeader : Bool
deriving DecidableEq, Repr

/-- `MarkdownParseResult` from `src/unnamed/part_001`.  The `alignments`
and `cellFormats` keys, absent (`undefined`) on the empty-input and
multi-table return paths of the source, are modelled there as `[]`
(no claim distinguishes the two). -/
structure MarkdownParseResult where
  data : List (List Str)
  hasHeader : Bool
  errors : List ParseErr
  alignments : List Alignment
  cellFormats : List (List CellFormat)
  metadata : Metadata
  multipleTablesData : Option (List MTableEntry) := none
deriving DecidableEq, Repr

namespace MarkdownParser

/-- The test of `isTableRow` applied after `trim`: pipes at both ends and
length greater than 2. -/
def isTableRow (line : Str) : Bool :=
  let t := jsTrim line
  t.headD ' ' = '|' && t.getLastD ' ' = '|' && decide (2 < t.length)

/-- One cell of a candidate separator row: the regex `^:?-+:?$` on the
trimmed cell (an optional colon, one or more dashes, an optional colon). -/
def sepCellOk (ct : Str) : Bool :=
  let s1 := if ct.headD ' ' = ':' then ct.tail else ct
  let s2 := if s1.getLastD ' ' = ':' then s1.dropLast else s1
  !s2.isEmpty && s2.all (· = '-')

/-- `isSeparatorLine`. -/
def isSeparatorLine (line : Str) : Bool :=
  let t := jsTrim line
  t.headD ' ' = '|' && t.getLastD ' ' = '|' &&
    (jsSplitChar '|' ((t.drop 1).dropLast)).all (fun cell => sepCellOk (jsTrim cell))

/-- `parseAlignments`: maps each pipe-delimited cell of the separator line
to an alignment (leading and trailing colon → center, trailing colon only
→ right, otherwise left). -/
def parseAlignments (separatorLine : Str) : List Alignment :=
  let t := jsTrim separatorLine
  (jsSplitChar '|' ((t.drop 1).dropLast)).map (fun cell =>
    let ct := jsTrim cell
    if ct.headD ' ' = ':' && ct.getLastD ' ' = ':' then Alignment.center
    else if ct.getLastD ' ' = ':' then Alignment.right
    else Alignment.left)

/-- `unescapeMarkdown`'s two sequential global replaces, for one two-character
pattern `[a, b]` replaced by the single character `r`. -/
def replacePair (a b r : Char) : List Char → List Char
  | [] => []
  | [c] => [c]
  | c1 :: c2 :: rest =>
    if c1 = a && c2 = b then r :: replacePair a b r rest
    else c1 :: replacePair a b r (c2 :: rest)

/-- `unescapeMarkdown`: `text.replace(/\\\|/g, '|').replace(/\\\\/g, '\\')`. -/
def unescapeMarkdown (text : Str) : Str :=
  replacePair '\\' '\\' '\\' (replacePair '\\' '|' '|' text)

/-- Characters matched by the regex metacharacter `.` (anything except a
line terminator). -/
def dotOk (c : Char) : Bool :=
  !(c = '\n' || c = '\r' || c = '\u2028' || c = '\u2029')

/-- One attempt of the unanchored regex `\[([^\]]+)\]\(([^)]+)\)` at the
head of the list; on success returns the two capture groups and the length
of the whole match.  The negated character classes make the match
deterministic (no backtracking alternatives exist). -/
def matchLinkAt (l : List Char) : Option ((Str × Str) × Nat) :=
  match l with
  | '[' :: rest =>
    let txt := rest.takeWhile (· ≠ ']')
    if txt.isEmpty then none
    else
      match rest.drop txt.length with
      | ']' :: '(' :: rest2 =>
        let url := rest2.takeWhile (· ≠ ')')
        if url.isEmpty then none
        else
          match rest2.drop url.length with
          | ')' :: _ => some ((txt, url), txt.length + url.length + 4)
          | _ => none
      | _ => none
  | _ => none

/-- One attempt of `\*{n}([^*]+)\*{n}` at the head of the list (the shapes
of the bold-italic, bold and italic run regexes for `n = 3, 2, 1`);
returns the capture group and the length of the whole match. -/
def matchEmphAt (n : Nat) (l : List Char) : Option (Str × Nat) :=
  if l.take n = List.replicate n '*' then
    let rest := l.drop n
    let content := rest.takeWhile (· ≠ '*')
    if content.isEmpty then none
    else if (rest.drop content.length).take n = List.replicate n '*' then
      some (content, content.length + 2 * n)
    else none
  else none

/-- Fuelled scan for `scanMatches` (each step consumes at least one input
character, so fuel equal to the input length is always enough; the fuel
only serves structural termination). -/
def scanMatchesF (m : List Char → Option (α × Nat)) :
    Nat → List Char → Nat → List (Nat × α × Nat)
  | 0, _, _ => []
  | _ + 1, [], _ => []
  | fuel + 1, c :: rest, pos =>
    match m (c :: rest) with
    | some (a, len) => (pos, a, len) :: scanMatchesF m fuel (rest.drop (len - 1)) (pos + len)
    | none => scanMatchesF m fuel rest (pos + 1)

/-- Repeated `RegExp.exec` with the `g` flag: scan left to right, emit each
match (start position, payload, match length) and resume at the end of the
match.  Every matcher used here only succeeds with a positive length, so
`rest.drop (len - 1)` is the input after the match. -/
def scanMatches (m : List Char → Option (α × Nat)) (l : List Char) (pos : Nat) :
    List (Nat × α × Nat) :=
  scanMatchesF m l.length l pos

/-- Fuelled loop for `replaceEmph`. -/
def replaceEmphF (n : Nat) : Nat → List Char → List Char
  | 0, l => l
  | _ + 1, [] => []
  | fuel + 1, c :: rest =>
    match matchEmphAt n (c :: rest) with
    | some (content, len) => content ++ replaceEmphF n fuel (rest.drop (len - 1))
    | none => c :: replaceEmphF n fuel rest

/-- Global replace of `\*{n}([^*]+)\*{n}` by its capture group (`'$1'`). -/
def replaceEmph (n : Nat) (l : List Char) : List Char := replaceEmphF n l.length l

/-- Strips bold-italic, then bold, then italic asterisk markup from link
display text (the three sequential global replaces of the source). -/
def stripMd (s : Str) : Str := replaceEmph 1 (replaceEmph 2 (replaceEmph 3 s))

/-- The kinds of inline pattern found by `parsePartialFormattingNew`. -/
inductive PatType where
  | link
  | bolditalic
  | bold
  | italic
deriving DecidableEq, Repr

/-- A detected inline pattern (the `Pattern` interface of the source; the
field `originalLength`, written but never read, is not modelled; the
source's `end` field is named `endP`). -/
structure Pattern where
  type : PatType
  start : Nat
  endP : Nat
  content : Str
  url : Option Str := none
  isBold : Bool := false
  isItalic : Bool := false
deriving DecidableEq, Repr

/-- Stable insertion sort by `start` (the `patterns.sort((a, b) => a.start -
b.start)` call; JavaScript's sort is stable, and the kept patterns have
pairwise distinct start positions anyway). -/
def insertByStart (p : Pattern) : List Pattern → List Pattern
  | [] => [p]
  | q :: rest => if p.start < q.start then p :: q :: rest else q :: insertByStart p rest

/-- Stable sort by `start`. -/
def sortByStart : List Pattern → List Pattern
  | [] => []
  | p :: rest => insertByStart p (sortByStart rest)

/-- The segment-assembly loop at the end of `parsePartialFormattingNew`:
walks the sorted patterns keeping the current input position (source
coordinates) and output position (display coordinates), emitting the plain
text between patterns and one segment per pattern. -/
def buildSegments (text : Str) : List Pattern → Nat → Nat → List Segment
  | [], inPos, outPos =>
    let remaining := text.drop inPos
    if remaining.isEmpty then []
    else [{ text := remaining, start := outPos, endP := outPos + remaining.length }]
  | p :: rest, inPos, outPos =>
    let before := if inPos < p.start then (text.drop inPos).take (p.start - inPos) else []
    let bSegs : List Segment :=
      if before.isEmpty then []
      else [{ text := before, start := outPos, endP := outPos + before.length }]
    let o1 := outPos + before.length
    let isL := p.type = PatType.link
    let seg : Segment :=
      { text := p.content, start := o1, endP := o1 + p.content.length,
        isBold := !isL && p.isBold, isItalic := !isL && p.isItalic,
        isLink := isL, linkUrl := p.url }
    bSegs ++ seg :: buildSegments text rest p.endP (o1 + p.content.length)

/-- The final line of `parsePartialFormattingNew`:
`segments.length > 0 ? segments : [{ text, start: 0, end: text.length }]`. -/
def ppfFinish (text : Str) (segs : List Segment) : List Segment :=
  if segs.isEmpty then [{ text := text, start := 0, endP := text.length }] else segs

/-- `parsePartialFormattingNew`: finds link patterns, then bold-italic,
bold and italic runs outside links (rejecting overlaps in favour of the
earlier-registered, higher-priority pattern), sorts them by position and
assembles the segment list with display-text coordinates. -/
def parsePartialFormattingNew (text : Str) : List Segment :=
  let linkPats : List Pattern :=
    (scanMatches matchLinkAt text 0).map (fun m =>
      { type := PatType.link, start := m.1, endP := m.1 + m.2.2,
        content := stripMd m.2.1.1, url := some m.2.1.2 })
  let insideLink : Nat → Bool := fun pos =>
    linkPats.any (fun p => decide (p.start ≤ pos) && decide (pos < p.endP))
  let biPats : List Pattern :=
    (scanMatches (matchEmphAt 3) text 0).filterMap (fun m =>
      if insideLink m.1 then none
      else some { type := PatType.bolditalic, start := m.1, endP := m.1 + m.2.2,
                  content := m.2.1, isBold := true, isItalic := true })
  let boldPats : List Pattern :=
    (scanMatches (matchEmphAt 2) text 0).filterMap (fun m =>
      if insideLink m.1 then none
      else if biPats.any (fun p => decide (p.start ≤ m.1) && decide (m.1 < p.endP)) then none
      else some { type := PatType.bold, start := m.1, endP := m.1 + m.2.2,
                  content := m.2.1, isBold := true })
  let prevPats := linkPats ++ biPats ++ boldPats
  let italPats : List Pattern :=
    (scanMatches (matchEmphAt 1) text 0).filterMap (fun m =>
      if insideLink m.1 then none
      else if prevPats.any (fun p => decide (p.start ≤ m.1) && decide (m.1 < p.endP)) then none
      else some { type := PatType.italic, start := m.1, endP := m.1 + m.2.2,
                  content := m.2.1, isItalic := true })
  ppfFinish text (buildSegments text (sortByStart (prevPats ++ italPats)) 0 0)

/-- `parsePartialFormatting` delegates to the new implementation. -/
def parsePartialFormatting (text : Str) : List Segment := parsePartialFormattingNew text

/-- The anchored image regex `^!\[([^\]]*)\]\(([^)]+)\)$` (the alt text may
be empty); returns `(alt, url)`. -/
def matchImageFull (l : Str) : Option (Str × Str) :=
  match l with
  | '!' :: '[' :: rest =>
    let alt := rest.takeWhile (· ≠ ']')
    match rest.drop alt.length with
    | ']' :: '(' :: rest2 =>
      let url := rest2.takeWhile (· ≠ ')')
      if url.isEmpty then none
      else
        match rest2.drop url.length with
        | [')'] => some (alt, url)
        | _ => none
    | _ => none
  | _ => none

/-- The anchored link regex `^\[([^\]]+)\]\(([^)]+)\)$`; returns
`(text, url)`. -/
def matchLinkFull (l : Str) : Option (Str × Str) :=
  match matchLinkAt l with
  | some ((txt, url), len) => if len = l.length then some (txt, url) else none
  | none => none

/-- The anchored wrap regex `^\*{n}(.*)\*{n}$`: `n` asterisks at each end
with the capture group (the inner text, which may contain asterisks but no
line terminator) in between. -/
def fullWrapStar (n : Nat) (u : Str) : Option Str :=
  if u.take n = List.replicate n '*' && u.drop (u.length - n) = List.replicate n '*' &&
      decide (2 * n ≤ u.length) && ((u.drop n).take (u.length - 2 * n)).all dotOk then
    some ((u.drop n).take (u.length - 2 * n))
  else none

/-- The anchored wrap regex `^_{n}(.*_{n})$` as written in the source: the
capture group keeps the closing underscores, so the returned text is
`u.drop n` (everything after the opening underscores). -/
def fullWrapUnder (n : Nat) (u : Str) : Option Str :=
  if u.take n = List.replicate n '_' && u.drop (u.length - n) = List.replicate n '_' &&
      decide (2 * n ≤ u.length) && ((u.drop n).take (u.length - 2 * n)).all dotOk then
    some (u.drop n)
  else none

/-- The leading `[0-9,]+(?:\.[0-9]+)?` of the numeric regexes: returns the
integer part (digits and grouping commas), the fractional digits when the
optional group matched, and the unconsumed rest of the string. -/
def numSplit (l : Str) : Option (Str × Option Str × Str) :=
  let ip := l.takeWhile (fun c => c.isDigit || c = ',')
  if ip.isEmpty then none
  else
    match l.drop ip.length with
    | '.' :: rest2 =>
      let fr := rest2.takeWhile Char.isDigit
      if fr.isEmpty then some (ip, none, '.' :: rest2)
      else some (ip, some fr, rest2.drop fr.length)
    | rest => some (ip, none, rest)

/-- Value of a run of decimal digits. -/
def digitsVal (l : Str) : Nat := l.foldl (fun a c => a * 10 + (c.toNat - 48)) 0

/-- `parseFloat(match.replace(/,/g, ''))` with its `isNaN` guard: `none`
when the cleaned string is empty (no digits at all), otherwise the exact
decimal value. -/
def numVal (ip : Str) (fr : Option Str) : Option ℚ :=
  let digits := ip.filter (· ≠ ',')
  match fr with
  | some f => some ((digitsVal digits : ℚ) + (digitsVal f : ℚ) / (10 : ℚ) ^ f.length)
  | none => if digits.isEmpty then none else some (digitsVal digits)

/-- The currency symbols of `parseNumericFormat`. -/
def currencyChars : List Char := ['¥', '￥', '$', '€', '£', '₹', '₩', '₽']

/-- The unit tokens of `parseNumericFormat`. -/
def unitStrs : List Str :=
  [str "個", str "台", str "本", str "枚", str "件", str "人", str "回",
   str "kg", str "g", str "m", str "cm", str "mm", str "L", str "ml",
   str "時間", str "分", str "秒"]

/-- `parseNumericFormat`: tries, in order, a currency-prefixed number, a
percentage, a unit-suffixed number and a bare number, each on the trimmed
cell and each subject to the `isNaN` guard; returns
`(currency, unit, numericValue)`. -/
def parseNumericFormat (text : Str) : Option (Option Str × Option Str × ℚ) :=
  let t := jsTrim text
  let curr : Option (Option Str × Option Str × ℚ) :=
    match t with
    | c :: rest =>
      if c ∈ currencyChars then
        match numSplit rest with
        | some (ip, fr, []) => (numVal ip fr).map (fun v => (some [c], none, v))
        | _ => none
      else none
    | [] => none
  match curr with
  | some r => some r
  | none =>
    let pct : Option (Option Str × Option Str × ℚ) :=
      match numSplit t with
      | some (ip, fr, ['%']) => (numVal ip fr).map (fun v => (none, some ['%'], v))
      | _ => none
    match pct with
    | some r => some r
    | none =>
      let un : Option (Option Str × Option Str × ℚ) :=
        match numSplit t with
        | some (ip, fr, rest) =>
          if rest ∈ unitStrs then (numVal ip fr).map (fun v => (none, some rest, v))
          else none
        | none => none
      match un with
      | some r => some r
      | none =>
        match numSplit t with
        | some (ip, fr, []) => (numVal ip fr).map (fun v => (none, none, v))
        | _ => none

/-- `parseTextFormatting`: unescapes the cell, then classifies it in
priority order (image, link, bold+italic, bold, italic, numeric, partial
segments, plain); returns the display text and the `CellFormat`. -/
def parseTextFormatting (text : Str) : Str × CellFormat :=
  let u := unescapeMarkdown text
  match matchImageFull u with
  | some (alt, url) =>
    let d := if alt.isEmpty then str "Image" else alt
    (d, { text := d, isImage := true, imageUrl := some url, imageAlt := some alt })
  | none =>
  match matchLinkFull u with
  | some (txt, url) =>
    let d := stripMd txt
    (d, { text := d, isLink := true, linkUrl := some url })
  | none =>
  match fullWrapStar 3 u <|> fullWrapUnder 3 u with
  | some inner => (inner, { text := inner, isBold := true, isItalic := true })
  | none =>
  match fullWrapStar 2 u <|> fullWrapUnder 2 u with
  | some inner => (inner, { text := inner, isBold := true })
  | none =>
  match fullWrapStar 1 u <|> fullWrapUnder 1 u with
  | some inner => (inner, { text := inner, isItalic := true })
  | none =>
  match parseNumericFormat u with
  | some (cur, un, v) =>
    (u, { text := u, isNumeric := true, currency := cur, unit := un, numericValue := some v })
  | none =>
  let partialSegments := parsePartialFormatting u
  let s0 := partialSegments.headD default
  if decide (1 < partialSegments.length) ||
      (decide (partialSegments.length = 1) && (s0.isBold || s0.isItalic || s0.isLink)) then
    let plainText := (partialSegments.map (·.text)).flatten
    (plainText, { text := plainText, segments := some partialSegments })
  else (u, { text := u })

/-- The cell scan of `parseTableRowWithFormatting`: an unescaped `|` ends a
cell, `\|` and `\\` are unescaped inline, a backslash before any other
character (or at the end) is literal.  Each finished cell is trimmed (when
requested) and classified by `parseTextFormatting`. -/
def rowCells (trimWs : Bool) : List Char → Str → List (Str × CellFormat)
  | [], current => [parseTextFormatting (if trimWs then jsTrim current else current)]
  | '|' :: rest, current =>
    parseTextFormatting (if trimWs then jsTrim current else current) :: rowCells trimWs rest []
  | '\\' :: c2 :: rest2, current =>
    if c2 = '|' || c2 = '\\' then rowCells trimWs rest2 (current ++ [c2])
    else rowCells trimWs (c2 :: rest2) (current ++ ['\\'])
  | ['\\'], current =>
    [parseTextFormatting (if trimWs then jsTrim (current ++ ['\\']) else current ++ ['\\'])]
  | c :: rest, current => rowCells trimWs rest (current ++ [c])

/-- `parseTableRowWithFormatting`: strips the outer pipes of the trimmed
line and scans the interior into cells and their formats. -/
def parseTableRowWithFormatting (line : Str) (trimWs : Bool) :
    List Str × List CellFormat :=
  let t := jsTrim line
  let content := (t.drop 1).dropLast
  let cells := rowCells trimWs content []
  (cells.map (·.1), cells.map (·.2))

/-- The line scan of `extractTableFromText`: collects the maximal first run
of table/separator lines (blank lines inside the run included), stopping
at the first other content once inside the run. -/
def extractLoop : List Str → Bool → List Str
  | [], _ => []
  | line :: rest, inTable =>
    let t := jsTrim line
    if isTableRow t || isSeparatorLine t then line :: extractLoop rest true
    else if inTable && t.isEmpty then line :: extractLoop rest true
    else if inTable then []
    else extractLoop rest false

/-- `extractTableFromText`. -/
def extractTableFromText (text : Str) : Str :=
  joinNl (extractLoop (splitNl text) false)

/-- The trimmed non-blank lines that `parse` works on (computed from the
extracted table block). -/
def mdLines (text : Str) : List Str :=
  ((splitNl (extractTableFromText text)).map jsTrim).filter (fun l => !l.isEmpty)

/-- The row loop of `parse` over the numbered trimmed lines: stops once
`maxRows` rows have been emitted, skips the separator line and non-table
lines, drops over-wide rows with a `COLUMN_LIMIT_EXCEEDED` error
(1-based line number).  The row scanner is total, so the `try/catch` is
dead code and `PARSE_ERROR` is never produced. -/
def mdLoop (trimWs : Bool) (maxRows maxCols : Nat) (sepIdx : Option Nat) :
    List (Nat × Str) → Nat →
    List (List Str) × List (List CellFormat) × List ParseErr
  | [], _ => ([], [], [])
  | (i, line) :: rest, count =>
    if maxRows ≤ count then ([], [], [])
    else if sepIdx = some i then mdLoop trimWs maxRows maxCols sepIdx rest count
    else if !isTableRow line then mdLoop trimWs maxRows maxCols sepIdx rest count
    else
      let rf := parseTableRowWithFormatting line trimWs
      if maxCols < rf.1.length then
        let r := mdLoop trimWs maxRows maxCols sepIdx rest count
        (r.1, r.2.1, ⟨i + 1, .COLUMN_LIMIT_EXCEEDED⟩ :: r.2.2)
      else
        let r := mdLoop trimWs maxRows maxCols sepIdx rest (count + 1)
        (rf.1 :: r.1, rf.2 :: r.2.1, r.2.2)

/-- The post-loop adjustment of the alignment array: when there is data and
a non-empty alignment array, pad it with `left` and truncate it to the
width of the first data row. -/
def adjustAlignments (alignments : List Alignment) (data : List (List Str)) :
    List Alignment :=
  if !data.isEmpty && !alignments.isEmpty then
    let ecc := (data.headD []).length
    (alignments ++ List.replicate (ecc - alignments.length) Alignment.left).take ecc
  else alignments

/-- The separator-line index of `parse`: `some 1` exactly when header
detection is requested, at least two non-blank lines exist and the line
at index 1 is a valid separator; otherwise `none` (the source's `-1`). -/
def mdSepIdx (text : Str) (options : ParseOptions) : Option Nat :=
  if options.hasHeader.getD true && decide (2 ≤ (mdLines text).length) &&
      isSeparatorLine ((mdLines text).getD 1 []) then some 1 else none

/-- `MarkdownParser.parse` from `src/unnamed/part_001`. -/
def parse (text : Str) (options : ParseOptions := {}) : MarkdownParseResult :=
  let hasHeader := options.hasHeader.getD true
  let maxRows := options.maxRows.getD 100
  let maxColumns := options.maxColumns.getD 20
  let trimWhitespace := options.trimWhitespace.getD true
  if (jsTrim text).isEmpty then
    { data := [], hasHeader := false, errors := [⟨1, .EMPTY_DATA⟩],
      alignments := [], cellFormats := [], metadata := ⟨0, 0, .markdown⟩ }
  else
    let lines := mdLines text
    let sepIdx := mdSepIdx text options
    let alignments0 := if sepIdx.isSome then parseAlignments (lines.getD 1 []) else []
    let r := mdLoop trimWhitespace maxRows maxColumns sepIdx lines.enum 0
    { data := r.1, hasHeader := hasHeader && sepIdx.isSome, errors := r.2.2,
      alignments := adjustAlignments alignments0 r.1, cellFormats := r.2.1,
      metadata := ⟨r.1.length, (r.1.headD []).length, .markdown⟩ }

/-- `validate`. -/
def validate (text : Str) : Bool :=
  if (jsTrim text).isEmpty then false
  else
    (((splitNl text).map jsTrim).filter (fun l => !l.isEmpty)).any (fun l => isTableRow l)

/-- The line scan of `extractMultipleTablesFromText`: opens a new block on
a table/separator line outside a block, keeps blank lines inside a block,
and closes the block at non-blank non-table content. -/
def extractMultiLoop : List Str → Bool → List Str → List (List Str)
  | [], inTable, cur => if inTable && !cur.isEmpty then [cur] else []
  | line :: rest, inTable, cur =>
    let t := jsTrim line
    if inTable && !isTableRow t && !isSeparatorLine t then
      if !t.isEmpty then
        (if !cur.isEmpty then [cur] else []) ++ extractMultiLoop rest false []
      else extractMultiLoop rest true (cur ++ [line])
    else if isTableRow t || isSeparatorLine t then
      if inTable then extractMultiLoop rest true (cur ++ [line])
      else extractMultiLoop rest true [line]
    else extractMultiLoop rest inTable cur

/-- `extractMultipleTablesFromText`, returning each block's content
(the block's original lines joined with newlines). -/
def extractMultipleTablesFromText (text : Str) : List Str :=
  (extractMultiLoop (splitNl text) false []).map joinNl

/-- The fold state of the multi-table branch of `parseMultipleTables`. -/
structure MTAcc where
  entries : List MTableEntry
  errors : List ParseErr
  totalRows : Nat
  maxCols : Nat
deriving DecidableEq, Repr

/-- One iteration of the `for (const table of tables)` loop of
`parseMultipleTables`: blocks whose parse produced no rows contribute no
entry (their errors are still collected). -/
def mtStep (options : ParseOptions) (acc : MTAcc) (t : Str) : MTAcc :=
  let r := parse t options
  if decide (0 < r.data.length) then
    { entries := acc.entries ++
        [⟨r.data, r.alignments, r.cellFormats, r.hasHeader⟩],
      errors := acc.errors ++ r.errors,
      totalRows := acc.totalRows + r.data.length,
      maxCols := max acc.maxCols (r.data.headD []).length }
  else { acc with errors := acc.errors ++ r.errors }

/-- `MarkdownParser.parseMultipleTables`. -/
def parseMultipleTables (text : Str) (options : ParseOptions := {}) :
    MarkdownParseResult :=
  match extractMultipleTablesFromText text with
  | [] =>
    { data := [], hasHeader := false, errors := [⟨1, .EMPTY_DATA⟩],
      alignments := [], cellFormats := [], metadata := ⟨0, 0, .markdown⟩,
      multipleTablesData := some [] }
  | [t] =>
    let r := parse t options
    let entry : MTableEntry := ⟨r.data, r.alignments, r.cellFormats, r.hasHeader⟩
    { r with multipleTablesData := some [entry] }
  | tables =>
    let res := tables.foldl (mtStep options) ⟨[], [], 0, 0⟩
    { data := [], hasHeader := false, errors := res.errors,
      alignments := [], cellFormats := [],
      metadata := ⟨res.totalRows, res.maxCols, .markdown⟩,
      multipleTablesData := some res.entries }

/-- The rows that the row loop of `parse` would emit from the given
numbered lines, before the `maxRows` cut: the separator line and non-table
lines are skipped, each remaining line is tokenized, and over-wide rows
are dropped. -/
def mdValidRows (text : Str) (options : ParseOptions) (numbered : List (Nat × Str)) :
    List (List Str) :=
  ((numbered.filter (fun p => decide (mdSepIdx text options ≠ some p.1) && isTableRow p.2)).map
      (fun p => (parseTableRowWithFormatting p.2 (options.trimWhitespace.getD true)).1)).filter
    (fun row => decide (row.length ≤ options.maxColumns.getD 20))

end MarkdownParser

/-- Checks that a segment list is a chained partition of the display text
starting at the given position: each segment starts where the previous one
ended and its `endP` is its `start` plus the length of its text. -/
def segChainOk : Nat → List Segment → Bool
  | _, [] => true
  | pos, s :: rest =>
    decide (s.start = pos) && decide (s.endP = s.start + s.text.length) && segChainOk s.endP rest

/-- Concatenation of the texts of a segment list. -/
def segsJoin (segs : List Segment) : Str := (segs.map (·.text)).flatten

/-! ## General lemmas about the string primitives -/

set_option maxRecDepth 40000

theorem jsTrim_length_le (l : Str) : (jsTrim l).length ≤ l.length := by
  unfold jsTrim
  rw [List.length_reverse]
  have h1 : (List.dropWhile isJsWs l).length ≤ l.length :=
    (List.dropWhile_suffix _).length_le
  have h2 : (List.dropWhile isJsWs (List.dropWhile isJsWs l).reverse).length ≤
      (List.dropWhile isJsWs l).reverse.length := (List.dropWhile_suffix _).length_le
  rw [List.length_reverse] at h2
  omega

theorem jsTrim_eq_nil_of_all (l : Str) (h : ∀ c ∈ l, isJsWs c = true) : jsTrim l = [] := by
  unfold jsTrim
  have h1 : l.dropWhile isJsWs = [] := List.dropWhile_eq_nil_iff.mpr h
  simp [h1]

theorem all_of_jsTrim_eq_nil (l : Str) (h : jsTrim l = []) : ∀ c ∈ l, isJsWs c = true := by
  unfold jsTrim at h
  rw [List.reverse_eq_nil_iff, List.dropWhile_eq_nil_iff] at h
  intro c hc
  rcases List.mem_append.mp ((List.takeWhile_append_dropWhile (p := isJsWs) (l := l)) ▸ hc) with
    h1 | h2
  · exact List.mem_takeWhile_imp h1
  · exact h (c) (List.mem_reverse.mpr h2)

theorem mem_of_mem_jsSplitChar (sep : Char) (l : Str) :
    ∀ l' ∈ jsSplitChar sep l, ∀ c ∈ l', c ∈ l := by
  induction l with
  | nil => intro l' hl' c hc; simp [jsSplitChar] at hl'; simp [hl'] at hc
  | cons a rest ih =>
    intro l' hl' c hc
    by_cases ha : a = sep
    · simp [jsSplitChar, ha] at hl'
      rcases hl' with h | h
      · simp [h] at hc
      · exact List.mem_cons_of_mem _ (ih l' h c hc)
    · simp only [jsSplitChar, if_neg ha] at hl'
      rcases hrec : jsSplitChar sep rest with _ | ⟨m, ms⟩
      · rw [hrec] at hl'; simp at hl'
        rw [hl'] at hc
        rcases List.mem_singleton.mp hc with rfl
        exact List.mem_cons_self _ _
      · rw [hrec] at hl'
        rcases List.mem_cons.mp hl' with rfl | h
        · rcases List.mem_cons.mp hc with rfl | h2
          · exact List.mem_cons_self _ _
          · exact List.mem_cons_of_mem _ (ih m (by rw [hrec]; exact List.mem_cons_self _ _) c h2)
        · exact List.mem_cons_of_mem _ (ih l' (by rw [hrec]; exact List.mem_cons_of_mem _ h) c hc)

theorem jsTrim_line_nil (text : Str) (h : jsTrim text = []) :
    ∀ l ∈ splitNl text, jsTrim l = [] := by
  intro l hl
  exact jsTrim_eq_nil_of_all l (fun c hc =>
    all_of_jsTrim_eq_nil text h c (mem_of_mem_jsSplitChar '\n' text l hl c hc))

/-! ## C4 — mixed bold/link cell is classified via segments -/

/-- C4: for `MarkdownParser.parse`, the cell `**Bold** and [link](url)` is
classified via segments: in order a bold span `Bold`, a plain span
`[blank]and[blank]`, and a link span `link` with URL `url` (three spans, hence at
least two), and the cell is not classified as a single bold-only cell
(its top-level `isBold`/`isItalic` flags stay unset). -/
theorem C4_mixed_cell_segments :
    (((MarkdownParser.parse (str "| **Bold** and [link](url) |")
        {}).cellFormats.headD []).headD default).segments = some
      [⟨str "Bold", 0, 4, true, false, false, none⟩,
       ⟨str " and ", 4, 9, false, false, false, none⟩,
       ⟨str "link", 9, 13, false, false, true, some (str "url")⟩] ∧
    2 ≤ ((((MarkdownParser.parse (str "| **Bold** and [link](url) |")
        {}).cellFormats.headD []).headD default).segments.getD []).length ∧
    (((MarkdownParser.parse (str "| **Bold** and [link](url) |")
        {}).cellFormats.headD []).headD default).isBold = false ∧
    (((MarkdownParser.parse (str "| **Bold** and [link](url) |")
        {}).cellFormats.headD []).headD default).isItalic = false ∧
    (((MarkdownParser.parse (str "| **Bold** and [link](url) |")
        {}).cellFormats.headD []).headD default).text = str "Bold and link" := by decide

/-! ## C5 — exact emphasis wraps: the underscore variants keep their
closing underscores in the display text -/

/-- C5 (failing input): the cell `___text___` is flagged bold+italic but
its display text is `text___` — the capture group of the source regex
`^___(.*___)$` keeps the closing underscores, so the wrapping syntax is
not fully stripped (likewise `__text__` → `text__`, `_text_` → `text_`),
while all asterisk wraps are stripped as the claim states. -/
theorem C5_underscore_wrap_keeps_closing_underscores :
    (MarkdownParser.parse (str "| ___text___ |") {}).data = [[str "text___"]] ∧
    (((MarkdownParser.parse (str "| ___text___ |") {}).cellFormats.headD []).headD
        default).isBold = true ∧
    (((MarkdownParser.parse (str "| ___text___ |") {}).cellFormats.headD []).headD
        default).isItalic = true ∧
    (MarkdownParser.parseTextFormatting (str "***text***")).1 = str "text" ∧
    (MarkdownParser.parseTextFormatting (str "**text**")).1 = str "text" ∧
    (MarkdownParser.parseTextFormatting (str "*text*")).1 = str "text" ∧
    (MarkdownParser.parseTextFormatting (str "__text__")).1 = str "text__" ∧
    (MarkdownParser.parseTextFormatting (str "_text_")).1 = str "text_" := by decide

/-! ## C7 — format detection of Markdown separators -/

/-- C7 (counterexample): the text `|---|` consists of a single line
matching the Markdown header-separator shape, yet both detectors return
`csv`: `detectFormatFromText` also requires at least two pipe-delimited
rows, and `detectFormat` splits the text into single characters so its
row test never fires. -/
theorem C7_counterexample :
    sepShapeLine (jsTrim (str "|---|")) = true ∧
    detectFormatFromText (str "|---|") = Format.csv ∧
    detectFormat (str "|---|") = Format.csv := by decide

/-- C7 (amended): `detectFormatFromText` returns `markdown` exactly when
some non-blank line matches the header-separator shape AND at least two
non-blank lines start and end with a pipe and contain at least three
pipes; `detectFormat` (the `split('')` variant) never returns `markdown`
at all. -/
theorem C7_amended_markdown_detection (text : Str) :
    (detectFormatFromText text = Format.markdown ↔
      ((dfLines text).any (fun l => sepShapeLine (jsTrim l)) = true ∧
        2 ≤ ((dfLines text).filter (fun l => pipeRowLine (jsTrim l))).length)) ∧
    detectFormat text ≠ Format.markdown := by
  constructor
  · simp only [detectFormatFromText]
    split_ifs with h0 h1 h2
    · have h0' : jsTrim text = [] := by simpa using h0
      have hdf : dfLines text = [] := by rw [dfLines, h0']; rfl
      refine iff_of_false (by simp) ?_
      rintro ⟨ha, -⟩
      rw [hdf] at ha
      simp at ha
    · have h1' : dfLines text = [] := by simpa using h1
      refine iff_of_false (by simp) ?_
      rintro ⟨ha, -⟩
      rw [h1'] at ha
      simp at ha
    · rw [Bool.and_eq_true, decide_eq_true_eq] at h2
      exact iff_of_true rfl ⟨h2.1, h2.2⟩
    all_goals
      refine iff_of_false (by simp) ?_
      rintro ⟨ha, hb⟩
      exact h2 (by rw [Bool.and_eq_true, decide_eq_true_eq]; exact ⟨ha, hb⟩)
  · simp only [detectFormat]
    split_ifs with g0 g1 g2 <;> try simp
    exfalso
    obtain ⟨l, hl, hc⟩ := List.any_eq_true.mp g1
    obtain ⟨l', hl', hml⟩ := List.mem_map.mp (List.mem_of_mem_filter hl)
    obtain ⟨c, -, hmc⟩ := List.mem_map.mp hl'
    have hlen : l.length ≤ 1 := by
      rw [← hml, ← hmc]
      exact le_trans (jsTrim_length_le [c]) (by simp)
    simp only [Bool.and_eq_true, decide_eq_true_eq] at hc
    omega

/-! ## C8 — `CSVParser.validate` with a whitespace delimiter -/

/-- C8 (failing input): for the delimited parser constructed with the tab
delimiter, `validate "a\tb"` returns `false` although the text is
non-blank and its only (non-blank) line contains the delimiter — the
source splits the text into single characters (`split('')`) and filters
the whitespace ones out, so a whitespace delimiter can never be found. -/
theorem C8_tab_delimiter_validate_false :
    CSVParser.validate '\t' (str "a\tb") = false ∧
    (jsTrim (str "a\tb")).isEmpty = false ∧
    ((splitNl (str "a\tb")).filter (fun l => !(jsTrim l).isEmpty)).any
      (fun l => jsIncludes l ['\t']) = true := by decide

/-! ## C9 — TSV is the CSV engine with a tab delimiter -/

/-- C9: `TSVParser.parse` returns exactly the result of the CSV engine
constructed with the tab delimiter, with `metadata.format` overwritten to
`tsv`; in particular on `a\tb\tc` it yields the same rows as
`CSVParser(',')` on `a,b,c`, with format `tsv`. -/
theorem C9_tsv_is_csv_with_tab :
    (∀ (text : Str) (options : ParseOptions),
      TSVParser.parse text options =
        { CSVParser.parse '\t' text options with
          metadata :=
            { (CSVParser.parse '\t' text options).metadata with format := Format.tsv } }) ∧
    (TSVParser.parse (str "a\tb\tc") {}).data = (CSVParser.parse ',' (str "a,b,c") {}).data ∧
    (TSVParser.parse (str "a\tb\tc") {}).data = [[str "a", str "b", str "c"]] ∧
    (TSVParser.parse (str "a\tb\tc") {}).metadata.format = Format.tsv :=
  ⟨fun _ _ => rfl, by decide, by decide, by decide⟩

/-! ## C1 — row/column count invariant -/

/-- C1 (counterexample): on a document with two one-row tables,
`parseMultipleTables` reports `metadata.rowCount = 2` while its top-level
`data` is empty, violating `rowCount == data.length`. -/
theorem C1_counterexample :
    (MarkdownParser.parseMultipleTables (str "|a|\nx\n|b|") {}).metadata.rowCount = 2 ∧
    (MarkdownParser.parseMultipleTables (str "|a|\nx\n|b|") {}).data.length = 0 := by decide

/-! ## C6 — multi-table segmentation -/

/-- C6 (counterexample): a document with two Markdown table blocks
separated by the non-blank prose line `x`, where every row of the second
block exceeds the default `maxColumns = 20`, yields
`multipleTablesData.length = 1`, not 2 — a block whose independent parse
produces no rows is omitted. -/
theorem C6_counterexample :
    (MarkdownParser.extractMultipleTablesFromText
        (str "|a|\nx\n|c|c|c|c|c|c|c|c|c|c|c|c|c|c|c|c|c|c|c|c|c|")).length = 2 ∧
    ((MarkdownParser.parseMultipleTables
        (str "|a|\nx\n|c|c|c|c|c|c|c|c|c|c|c|c|c|c|c|c|c|c|c|c|c|")
        {}).multipleTablesData.getD []).length = 1 := by decide

/-! ## Helper lemmas for segment chaining (C10) -/

theorem segChainOk_cons (pos : Nat) (s : Segment) (rest : List Segment)
    (h1 : s.start = pos) (h2 : s.endP = s.start + s.text.length)
    (h3 : segChainOk s.endP rest = true) : segChainOk pos (s :: rest) = true := by
  rw [h2, h1] at h3
  simp [segChainOk, h1, h2, h3]

theorem buildSegments_chain (text : Str) :
    ∀ (pats : List MarkdownParser.Pattern) (inPos outPos : Nat),
      segChainOk outPos (MarkdownParser.buildSegments text pats inPos outPos) = true := by
  intro pats
  induction pats with
  | nil =>
    intro inPos outPos
    simp only [MarkdownParser.buildSegments]
    split
    · rfl
    · simp [segChainOk]
  | cons p rest ih =>
    intro inPos outPos
    rcases hbe : (if inPos < p.start then (text.drop inPos).take (p.start - inPos) else []) with
      _ | ⟨c, cs⟩
    · simp only [MarkdownParser.buildSegments, hbe, List.isEmpty_nil, if_true,
        List.nil_append, List.length_nil, Nat.add_zero]
      refine segChainOk_cons _ _ _ rfl rfl ?_
      exact ih p.endP (outPos + p.content.length)
    · simp only [MarkdownParser.buildSegments, hbe, List.isEmpty_cons,
        Bool.false_eq_true, if_false, List.cons_append]
      refine segChainOk_cons _ _ _ rfl rfl ?_
      refine segChainOk_cons _ _ _ rfl rfl ?_
      exact ih p.endP (outPos + (c :: cs).length + p.content.length)

theorem ppfFinish_ne_nil (t : Str) (segs : List Segment) :
    MarkdownParser.ppfFinish t segs ≠ [] := by
  unfold MarkdownParser.ppfFinish
  split
  · simp
  · next h => simpa using h

theorem ppfFinish_chain (t : Str) (segs : List Segment)
    (h : segChainOk 0 segs = true) :
    segChainOk 0 (MarkdownParser.ppfFinish t segs) = true := by
  unfold MarkdownParser.ppfFinish
  split
  · simp [segChainOk]
  · exact h

theorem ppfNew_spec (t : Str) :
    ∃ pats, MarkdownParser.parsePartialFormattingNew t =
      MarkdownParser.ppfFinish t (MarkdownParser.buildSegments t pats 0 0) :=
  ⟨_, rfl⟩

theorem ppfNew_ne_nil (t : Str) : MarkdownParser.parsePartialFormattingNew t ≠ [] := by
  obtain ⟨pats, heq⟩ := ppfNew_spec t
  rw [heq]
  exact ppfFinish_ne_nil t _

theorem ppfNew_chain (t : Str) :
    segChainOk 0 (MarkdownParser.parsePartialFormattingNew t) = true := by
  obtain ⟨pats, heq⟩ := ppfNew_spec t
  rw [heq]
  exact ppfFinish_chain t _ (buildSegments_chain t pats 0 0)

theorem parseTextFormatting_segments_eq (s : Str) :
    (MarkdownParser.parseTextFormatting s).2.segments = none ∨
    ((MarkdownParser.parseTextFormatting s).2.segments =
        some (MarkdownParser.parsePartialFormattingNew (MarkdownParser.unescapeMarkdown s)) ∧
      (MarkdownParser.parseTextFormatting s).2.text =
        segsJoin (MarkdownParser.parsePartialFormattingNew (MarkdownParser.unescapeMarkdown s))) := by
  simp only [MarkdownParser.parseTextFormatting]
  split
  · left; rfl
  split
  · left; rfl
  split
  · left; rfl
  split
  · left; rfl
  split
  · left; rfl
  split
  · left; rfl
  split
  · right; exact ⟨rfl, rfl⟩
  · left; rfl

theorem rowCells_mem (tw : Bool) :
    ∀ (content : List Char) (current : Str) (pr : Str × CellFormat),
      pr ∈ MarkdownParser.rowCells tw content current →
      ∃ s, pr = MarkdownParser.parseTextFormatting s := by
  intro content current
  induction content, current using MarkdownParser.rowCells.induct tw with
  | case1 current =>
    intro pr h
    rw [MarkdownParser.rowCells] at h
    rcases List.mem_singleton.mp h with rfl
    exact ⟨_, rfl⟩
  | case2 rest current ih =>
    intro pr h
    rw [MarkdownParser.rowCells] at h
    rcases List.mem_cons.mp h with rfl | htail
    · exact ⟨_, rfl⟩
    · exact ih pr htail
  | case3 c2 rest2 current hcc ih =>
    intro pr h
    rw [MarkdownParser.rowCells, if_pos hcc] at h
    exact ih pr h
  | case4 c2 rest2 current hcc ih =>
    intro pr h
    rw [MarkdownParser.rowCells, if_neg hcc] at h
    exact ih pr h
  | case5 current =>
    intro pr h
    rw [MarkdownParser.rowCells] at h
    rcases List.mem_singleton.mp h with rfl
    exact ⟨_, rfl⟩
  | case6 c rest current h1 h2 h3 ih =>
    intro pr h
    rw [MarkdownParser.rowCells] at h
    · exact ih pr h
    · exact h1
    · exact h2
    · exact h3

theorem mdLoop_formats_mem (tw : Bool) (mr mc : Nat) (sep : Option Nat) :
    ∀ (numbered : List (Nat × Str)) (count : Nat) (rowf : List CellFormat),
      rowf ∈ (MarkdownParser.mdLoop tw mr mc sep numbered count).2.1 →
      ∃ line, rowf = (MarkdownParser.parseTableRowWithFormatting line tw).2 := by
  intro numbered
  induction numbered with
  | nil => intro count rowf h; simp [MarkdownParser.mdLoop] at h
  | cons p rest ih =>
    intro count rowf h
    obtain ⟨i, line⟩ := p
    by_cases hc : mr ≤ count
    · simp only [MarkdownParser.mdLoop, if_pos hc] at h
      simp at h
    · simp only [MarkdownParser.mdLoop, if_neg hc] at h
      split at h
      · exact ih count rowf h
      · split at h
        · exact ih count rowf h
        · split at h
          · exact ih count rowf h
          · rcases List.mem_cons.mp h with rfl | htail
            · exact ⟨line, rfl⟩
            · exact ih (count + 1) rowf htail

theorem parse_cellFormats_mem (text : Str) (options : ParseOptions) (rowf : List CellFormat)
    (h : rowf ∈ (MarkdownParser.parse text options).cellFormats) :
    ∃ line, rowf = (MarkdownParser.parseTableRowWithFormatting line
      (options.trimWhitespace.getD true)).2 := by
  by_cases hnb : (jsTrim text).isEmpty = true
  · simp only [MarkdownParser.parse, if_pos hnb] at h
    simp at h
  · simp only [MarkdownParser.parse, if_neg hnb] at h
    exact mdLoop_formats_mem _ _ _ _ _ 0 rowf h

/-- C10: every cell that `MarkdownParser.parse` classifies with segments
has a segment list that partitions the display text: it is non-empty, the
first segment starts at 0, each segment's `end` is its `start` plus the
length of its text, each segment starts where the previous one ended, and
the concatenation of the segment texts is the cell's display text. -/
theorem C10_segment_partition (text : Str) (options : ParseOptions)
    (row : List CellFormat) (fmt : CellFormat) (segs : List Segment)
    (hrow : row ∈ (MarkdownParser.parse text options).cellFormats)
    (hfmt : fmt ∈ row) (hseg : fmt.segments = some segs) :
    segs ≠ [] ∧ segChainOk 0 segs = true ∧ segsJoin segs = fmt.text := by
  obtain ⟨line, rfl⟩ := parse_cellFormats_mem text options row hrow
  simp only [MarkdownParser.parseTableRowWithFormatting] at hfmt
  obtain ⟨pr, hpr, rfl⟩ := List.mem_map.mp hfmt
  obtain ⟨s, rfl⟩ := rowCells_mem _ _ _ pr hpr
  rcases parseTextFormatting_segments_eq s with hnone | ⟨hsome, htext⟩
  · rw [hnone] at hseg
    cases hseg
  · rw [hsome] at hseg
    obtain rfl := Option.some.inj hseg
    exact ⟨ppfNew_ne_nil _, ppfNew_chain _, htext.symm⟩

/-- C10 (witness): the partition property instantiated on the cell
`x [y](u)`, whose segments are a plain span and a link span. -/
theorem C10_witness :
    [(⟨str "x y", false, false, false, none, false, none, none, false, none, none, none,
      some [⟨str "x ", 0, 2, false, false, false, none⟩, ⟨str "y", 2, 3, false, false, true, some (str "u")⟩]⟩ : CellFormat)] ∈ (MarkdownParser.parse (str "| x [y](u) |") {}).cellFormats ∧
    (⟨str "x y", false, false, false, none, false, none, none, false, none, none, none,
      some [⟨str "x ", 0, 2, false, false, false, none⟩, ⟨str "y", 2, 3, false, false, true, some (str "u")⟩]⟩ : CellFormat) ∈ [(⟨str "x y", false, false, false, none, false, none, none, false, none, none, none,
      some [⟨str "x ", 0, 2, false, false, false, none⟩, ⟨str "y", 2, 3, false, false, true, some (str "u")⟩]⟩ : CellFormat)] ∧
    ([⟨str "x ", 0, 2, false, false, false, none⟩, ⟨str "y", 2, 3, false, false, true, some (str "u")⟩] : List Segment) ≠ [] ∧
    segChainOk 0 [⟨str "x ", 0, 2, false, false, false, none⟩, ⟨str "y", 2, 3, false, false, true, some (str "u")⟩] = true ∧
    segsJoin [⟨str "x ", 0, 2, false, false, false, none⟩, ⟨str "y", 2, 3, false, false, true, some (str "u")⟩] = (⟨str "x y", false, false, false, none, false, none, none, false, none, none, none,
      some [⟨str "x ", 0, 2, false, false, false, none⟩, ⟨str "y", 2, 3, false, false, true, some (str "u")⟩]⟩ : CellFormat).text := by
  have happ := C10_segment_partition (str "| x [y](u) |") {} [(⟨str "x y", false, false, false, none, false, none, none, false, none, none, none,
      some [⟨str "x ", 0, 2, false, false, false, none⟩, ⟨str "y", 2, 3, false, false, true, some (str "u")⟩]⟩ : CellFormat)] (⟨str "x y", false, false, false, none, false, none, none, false, none, none, none,
      some [⟨str "x ", 0, 2, false, false, false, none⟩, ⟨str "y", 2, 3, false, false, true, some (str "u")⟩]⟩ : CellFormat)
    [⟨str "x ", 0, 2, false, false, false, none⟩, ⟨str "y", 2, 3, false, false, true, some (str "u")⟩] (by decide) (by decide) (by decide)
  exact ⟨by decide, by decide, happ.1, happ.2.1, happ.2.2⟩

/-! ## Helper lemmas for the count invariants -/

theorem csvParse_inv (delimiter : Char) (text : Str) (options : ParseOptions) :
    (CSVParser.parse delimiter text options).metadata.rowCount =
      (CSVParser.parse delimiter text options).data.length ∧
    (CSVParser.parse delimiter text options).metadata.columnCount =
      ((CSVParser.parse delimiter text options).data.headD []).length := by
  simp only [CSVParser.parse]
  split <;> exact ⟨rfl, rfl⟩

theorem mdParse_inv (text : Str) (options : ParseOptions) :
    (MarkdownParser.parse text options).metadata.rowCount =
      (MarkdownParser.parse text options).data.length ∧
    (MarkdownParser.parse text options).metadata.columnCount =
      ((MarkdownParser.parse text options).data.headD []).length := by
  simp only [MarkdownParser.parse]
  split <;> exact ⟨rfl, rfl⟩

theorem mtStep_totalRows (options : ParseOptions) (acc : MarkdownParser.MTAcc) (t : Str) :
    (MarkdownParser.mtStep options acc t).totalRows =
      acc.totalRows + (MarkdownParser.parse t options).data.length := by
  simp only [MarkdownParser.mtStep]
  split
  · rfl
  · next h =>
    simp only [decide_eq_true_eq, Nat.not_lt, Nat.le_zero] at h
    simp [h]

theorem mtStep_maxCols (options : ParseOptions) (acc : MarkdownParser.MTAcc) (t : Str) :
    (MarkdownParser.mtStep options acc t).maxCols =
      max acc.maxCols ((MarkdownParser.parse t options).data.headD []).length := by
  simp only [MarkdownParser.mtStep]
  split
  · rfl
  · next h =>
    simp only [decide_eq_true_eq, Nat.not_lt, Nat.le_zero] at h
    simp [List.length_eq_zero.mp h]

theorem mtFold_totalRows (options : ParseOptions) (ts : List Str) :
    ∀ acc : MarkdownParser.MTAcc,
      ((ts.foldl (MarkdownParser.mtStep options) acc).totalRows =
        acc.totalRows + (ts.map (fun t => (MarkdownParser.parse t options).data.length)).sum) := by
  induction ts with
  | nil => intro acc; simp
  | cons t ts ih =>
    intro acc
    rw [List.foldl_cons, ih, mtStep_totalRows]
    simp [Nat.add_assoc]

theorem mtFold_maxCols (options : ParseOptions) (ts : List Str) :
    ∀ acc : MarkdownParser.MTAcc,
      ((ts.foldl (MarkdownParser.mtStep options) acc).maxCols =
        (ts.map (fun t => ((MarkdownParser.parse t options).data.headD []).length)).foldl
          max acc.maxCols) := by
  induction ts with
  | nil => intro acc; simp
  | cons t ts ih =>
    intro acc
    rw [List.foldl_cons, ih, mtStep_maxCols]
    simp [List.foldl_cons]

/-- C1 (amended): the row/column count invariant holds for every `parse`
of the CSV, TSV and Markdown parsers, and for `parseMultipleTables`
whenever at most one table block is extracted; with two or more blocks the
top-level `data` is empty while `rowCount` is the sum of the blocks'
independent row counts and `columnCount` the maximum of their first-row
widths. -/
theorem C1_amended_row_column_invariant :
    (∀ (delimiter : Char) (text : Str) (options : ParseOptions),
      (CSVParser.parse delimiter text options).metadata.rowCount =
        (CSVParser.parse delimiter text options).data.length ∧
      (CSVParser.parse delimiter text options).metadata.columnCount =
        ((CSVParser.parse delimiter text options).data.headD []).length) ∧
    (∀ (text : Str) (options : ParseOptions),
      (TSVParser.parse text options).metadata.rowCount =
        (TSVParser.parse text options).data.length ∧
      (TSVParser.parse text options).metadata.columnCount =
        ((TSVParser.parse text options).data.headD []).length) ∧
    (∀ (text : Str) (options : ParseOptions),
      (MarkdownParser.parse text options).metadata.rowCount =
        (MarkdownParser.parse text options).data.length ∧
      (MarkdownParser.parse text options).metadata.columnCount =
        ((MarkdownParser.parse text options).data.headD []).length) ∧
    (∀ (text : Str) (options : ParseOptions),
      (MarkdownParser.extractMultipleTablesFromText text).length ≤ 1 →
      (MarkdownParser.parseMultipleTables text options).metadata.rowCount =
        (MarkdownParser.parseMultipleTables text options).data.length ∧
      (MarkdownParser.parseMultipleTables text options).metadata.columnCount =
        ((MarkdownParser.parseMultipleTables text options).data.headD []).length) ∧
    (∀ (text : Str) (options : ParseOptions),
      2 ≤ (MarkdownParser.extractMultipleTablesFromText text).length →
      (MarkdownParser.parseMultipleTables text options).data = [] ∧
      (MarkdownParser.parseMultipleTables text options).metadata.rowCount =
        ((MarkdownParser.extractMultipleTablesFromText text).map
          (fun t => (MarkdownParser.parse t options).data.length)).sum ∧
      (MarkdownParser.parseMultipleTables text options).metadata.columnCount =
        ((MarkdownParser.extractMultipleTablesFromText text).map
          (fun t => ((MarkdownParser.parse t options).data.headD []).length)).foldl max 0) := by
  refine ⟨csvParse_inv, ?_, mdParse_inv, ?_, ?_⟩
  · intro text options
    exact csvParse_inv '\t' text options
  · intro text options hle
    rcases hext : MarkdownParser.extractMultipleTablesFromText text with _ | ⟨t, _ | ⟨t2, ts⟩⟩
    · simp only [MarkdownParser.parseMultipleTables, hext]
      exact ⟨rfl, rfl⟩
    · simp only [MarkdownParser.parseMultipleTables, hext]
      exact mdParse_inv t options
    · rw [hext] at hle; simp at hle
  · intro text options h2
    rcases hext : MarkdownParser.extractMultipleTablesFromText text with _ | ⟨t1, _ | ⟨t2, ts⟩⟩
    · rw [hext] at h2; simp at h2
    · rw [hext] at h2; simp at h2
    · simp only [MarkdownParser.parseMultipleTables, hext]
      refine ⟨by trivial, ?_, ?_⟩
      · rw [mtFold_totalRows]
        simp
      · rw [mtFold_maxCols]

/-- C1 (witness): the amended invariant instantiated on a one-block and a
two-block document. -/
theorem C1_witness :
    ((MarkdownParser.extractMultipleTablesFromText (str "|u|")).length ≤ 1 ∧
      (MarkdownParser.parseMultipleTables (str "|u|") {}).metadata.rowCount =
        (MarkdownParser.parseMultipleTables (str "|u|") {}).data.length) ∧
    (2 ≤ (MarkdownParser.extractMultipleTablesFromText (str "|a|\nx\n|b|")).length ∧
      (MarkdownParser.parseMultipleTables (str "|a|\nx\n|b|") {}).metadata.rowCount =
        ((MarkdownParser.extractMultipleTablesFromText (str "|a|\nx\n|b|")).map
          (fun t => (MarkdownParser.parse t {}).data.length)).sum) :=
  ⟨⟨by decide, (C1_amended_row_column_invariant.2.2.2.1 (str "|u|") {} (by decide)).1⟩,
   ⟨by decide,
    (C1_amended_row_column_invariant.2.2.2.2 (str "|a|\nx\n|b|") {} (by decide)).2.1⟩⟩

/-- C6 (amended): when extraction yields exactly two table blocks and each
block's independent single-table parse produces at least one data row,
`multipleTablesData` is exactly the two blocks' independent parse results
in order (hence has length 2). -/
theorem C6_amended_two_tables (text : Str) (options : ParseOptions) (b1 b2 : Str)
    (hext : MarkdownParser.extractMultipleTablesFromText text = [b1, b2])
    (h1 : (MarkdownParser.parse b1 options).data ≠ [])
    (h2 : (MarkdownParser.parse b2 options).data ≠ []) :
    (MarkdownParser.parseMultipleTables text options).multipleTablesData =
      some [⟨(MarkdownParser.parse b1 options).data,
             (MarkdownParser.parse b1 options).alignments,
             (MarkdownParser.parse b1 options).cellFormats,
             (MarkdownParser.parse b1 options).hasHeader⟩,
            ⟨(MarkdownParser.parse b2 options).data,
             (MarkdownParser.parse b2 options).alignments,
             (MarkdownParser.parse b2 options).cellFormats,
             (MarkdownParser.parse b2 options).hasHeader⟩] ∧
    ((MarkdownParser.parseMultipleTables text options).multipleTablesData.getD []).length = 2 := by
  have hp1 : (0 < (MarkdownParser.parse b1 options).data.length) := List.length_pos.mpr h1
  have hp2 : (0 < (MarkdownParser.parse b2 options).data.length) := List.length_pos.mpr h2
  simp only [MarkdownParser.parseMultipleTables, hext]
  constructor
  · simp [MarkdownParser.mtStep, hp1, hp2]
  · simp [MarkdownParser.mtStep, hp1, hp2]

/-! ## Helper lemmas for header/separator handling (C2) -/

theorem extractLoop_nil (lines : List Str) (h : ∀ l ∈ lines, jsTrim l = []) :
    MarkdownParser.extractLoop lines false = [] := by
  induction lines with
  | nil => rfl
  | cons l ls ih =>
    have hl : jsTrim l = [] := h l (List.mem_cons_self _ _)
    have e1 : MarkdownParser.isTableRow (jsTrim l) = false := by rw [hl]; decide
    have e2 : MarkdownParser.isSeparatorLine (jsTrim l) = false := by rw [hl]; decide
    simp only [MarkdownParser.extractLoop, e1, e2, Bool.or_self, Bool.false_and,
      Bool.false_eq_true, if_false]
    exact ih (fun l' hl' => h l' (List.mem_cons_of_mem _ hl'))

theorem mdLines_nil_of_trim (text : Str) (h : jsTrim text = []) :
    MarkdownParser.mdLines text = [] := by
  unfold MarkdownParser.mdLines MarkdownParser.extractTableFromText
  rw [extractLoop_nil (splitNl text) (jsTrim_line_nil text h)]
  rfl

theorem mdLoop_skip_filter (tw : Bool) (mr mc k : Nat) :
    ∀ (numbered : List (Nat × Str)) (count : Nat),
      MarkdownParser.mdLoop tw mr mc (some k) numbered count =
        MarkdownParser.mdLoop tw mr mc none
          (numbered.filter (fun p => p.1 != k)) count := by
  intro numbered
  induction numbered with
  | nil => intro count; rfl
  | cons p rest ih =>
    intro count
    obtain ⟨i, line⟩ := p
    by_cases hc : mr ≤ count
    · have hl : MarkdownParser.mdLoop tw mr mc (some k) ((i, line) :: rest) count =
          ([], [], []) := by
        simp only [MarkdownParser.mdLoop, if_pos hc]
      have hr : ∀ l, MarkdownParser.mdLoop tw mr mc none l count = ([], [], []) := by
        intro l
        cases l with
        | nil => rfl
        | cons q qs => simp only [MarkdownParser.mdLoop, if_pos hc]
      rw [hl, hr]
    · by_cases hik : i = k
      · subst hik
        rw [show MarkdownParser.mdLoop tw mr mc (some i) ((i, line) :: rest) count =
              MarkdownParser.mdLoop tw mr mc (some i) rest count from by
            simp only [MarkdownParser.mdLoop, if_neg hc]
            rw [if_pos trivial]]
        rw [List.filter_cons_of_neg (by simp)]
        exact ih count
      · rw [List.filter_cons_of_pos (by simp [hik])]
        simp only [MarkdownParser.mdLoop, if_neg hc]
        rw [if_neg (show ¬((some k : Option Nat) = some i) from by simp [Ne.symm hik]),
          if_neg (show ¬((none : Option Nat) = some i) from by simp)]
        by_cases hrow : (!MarkdownParser.isTableRow line) = true
        · rw [if_pos hrow, if_pos hrow]
          exact ih count
        · rw [if_neg hrow, if_neg hrow]
          by_cases hwide :
              mc < (MarkdownParser.parseTableRowWithFormatting line tw).1.length
          · rw [if_pos hwide, if_pos hwide, ih count]
          · rw [if_neg hwide, if_neg hwide, ih (count + 1)]

theorem getD_map_of_lt {α β : Type} (f : α → β) (l : List α) (j : Nat) (h : j < l.length)
    (d : β) (d' : α) : (l.map f).getD j d = f (l.getD j d') := by
  rw [List.getD_eq_getElem?_getD, List.getElem?_map, List.getElem?_eq_getElem h,
    List.getD_eq_getElem?_getD, List.getElem?_eq_getElem h]
  rfl

theorem adjustAlignments_getD (al : List Alignment) (data : List (List Str)) (j : Nat)
    (hj : j < (MarkdownParser.adjustAlignments al data).length) (hj2 : j < al.length) :
    (MarkdownParser.adjustAlignments al data).getD j Alignment.left =
      al.getD j Alignment.left := by
  unfold MarkdownParser.adjustAlignments
  unfold MarkdownParser.adjustAlignments at hj
  split at hj
  · next hcond =>
    rw [if_pos hcond]
    have hjecc : j < (data.headD []).length := by
      rw [List.length_take] at hj
      omega
    rw [List.getD_eq_getElem?_getD, List.getD_eq_getElem?_getD,
      List.getElem?_take_of_lt hjecc, List.getElem?_append_left hj2]
  · next hcond => rw [if_neg hcond]

/-- C2: with the `hasHeader` option resolved to true and at least two
non-blank lines in the extracted table block, if the line at index 1 is a
valid separator then the output `hasHeader` is true, the separator line is
consumed (the data rows are exactly those produced by the row loop run
without it), and each separator cell in range maps to its alignment by the
colon rule (leading+trailing → center, trailing only → right, otherwise
left; in particular `|:---|:---:|---:|` maps to [left, center, right]);
if the line at index 1 is not a valid separator, the output `hasHeader` is
false and no alignment array is derived (it is empty). -/
theorem C2_header_separator_alignment (text : Str) (options : ParseOptions)
    (h1 : options.hasHeader.getD true = true)
    (h2 : 2 ≤ (MarkdownParser.mdLines text).length) :
    (MarkdownParser.isSeparatorLine ((MarkdownParser.mdLines text).getD 1 []) = true →
      (MarkdownParser.parse text options).hasHeader = true ∧
      (MarkdownParser.parse text options).data =
        (MarkdownParser.mdLoop (options.trimWhitespace.getD true) (options.maxRows.getD 100)
          (options.maxColumns.getD 20) none
          ((MarkdownParser.mdLines text).enum.filter (fun p => p.1 != 1)) 0).1 ∧
      (∀ j : Nat, j < (MarkdownParser.parse text options).alignments.length →
        j < (jsSplitChar '|'
            (((jsTrim ((MarkdownParser.mdLines text).getD 1 [])).drop 1).dropLast)).length →
        (MarkdownParser.parse text options).alignments.getD j Alignment.left =
          (if (jsTrim ((jsSplitChar '|'
                (((jsTrim ((MarkdownParser.mdLines text).getD 1 [])).drop 1).dropLast)).getD
                j [])).headD ' ' = ':' &&
              (jsTrim ((jsSplitChar '|'
                (((jsTrim ((MarkdownParser.mdLines text).getD 1 [])).drop 1).dropLast)).getD
                j [])).getLastD ' ' = ':' then Alignment.center
           else if (jsTrim ((jsSplitChar '|'
                (((jsTrim ((MarkdownParser.mdLines text).getD 1 [])).drop 1).dropLast)).getD
                j [])).getLastD ' ' = ':' then Alignment.right
           else Alignment.left)) ∧
      MarkdownParser.parseAlignments (str "|:---|:---:|---:|") =
        [Alignment.left, Alignment.center, Alignment.right]) ∧
    (MarkdownParser.isSeparatorLine ((MarkdownParser.mdLines text).getD 1 []) = false →
      (MarkdownParser.parse text options).hasHeader = false ∧
      (MarkdownParser.parse text options).alignments = []) := by
  have htrim : ¬((jsTrim text).isEmpty = true) := by
    intro hcon
    have h0 : jsTrim text = [] := by simpa using hcon
    rw [mdLines_nil_of_trim text h0] at h2
    simp at h2
  constructor
  · intro hsep
    have hsepidx : MarkdownParser.mdSepIdx text options = some 1 := by
      have hcond : (options.hasHeader.getD true &&
          decide (2 ≤ (MarkdownParser.mdLines text).length) &&
          MarkdownParser.isSeparatorLine ((MarkdownParser.mdLines text).getD 1 [])) = true := by
        rw [h1, hsep]
        simp [h2]
      unfold MarkdownParser.mdSepIdx
      rw [if_pos hcond]
    refine ⟨?_, ?_, ?_, by decide⟩
    · simp only [MarkdownParser.parse, if_neg htrim]
      rw [hsepidx, h1]
      rfl
    · simp only [MarkdownParser.parse, if_neg htrim]
      rw [hsepidx, mdLoop_skip_filter]
    · intro j hj hj2
      have halign : (MarkdownParser.parse text options).alignments =
          MarkdownParser.adjustAlignments
            (MarkdownParser.parseAlignments ((MarkdownParser.mdLines text).getD 1 []))
            (MarkdownParser.parse text options).data := by
        simp only [MarkdownParser.parse, if_neg htrim]
        rw [hsepidx]
        rfl
      rw [halign] at hj ⊢
      have hj2' : j < (MarkdownParser.parseAlignments
          ((MarkdownParser.mdLines text).getD 1 [])).length := by
        simp only [MarkdownParser.parseAlignments, List.length_map]
        exact hj2
      refine Eq.trans (adjustAlignments_getD _ _ j hj hj2') ?_
      simp only [MarkdownParser.parseAlignments]
      exact getD_map_of_lt _ _ j hj2 Alignment.left []
  · intro hsep
    have hsepidx : MarkdownParser.mdSepIdx text options = none := by
      have hcond : ¬((options.hasHeader.getD true &&
          decide (2 ≤ (MarkdownParser.mdLines text).length) &&
          MarkdownParser.isSeparatorLine ((MarkdownParser.mdLines text).getD 1 [])) = true) := by
        rw [hsep]
        simp
      unfold MarkdownParser.mdSepIdx
      rw [if_neg hcond]
    constructor
    · simp only [MarkdownParser.parse, if_neg htrim]
      rw [hsepidx]
      simp
    · simp only [MarkdownParser.parse, if_neg htrim]
      rw [hsepidx]
      simp [MarkdownParser.adjustAlignments]

/-! ## Helper lemmas for the column-limit policy (C3) -/

theorem csvLoop_fst (delimiter : Char) (tw : Bool) (mc : Nat) :
    ∀ numbered : List (Nat × Str),
      (CSVParser.csvLoop delimiter tw mc numbered).1 =
        (numbered.map (fun p => CSVParser.parseLine delimiter tw p.2)).filter
          (fun row => decide (row.length ≤ mc)) := by
  intro numbered
  induction numbered with
  | nil => rfl
  | cons p rest ih =>
    obtain ⟨i, line⟩ := p
    by_cases hw : mc < (CSVParser.parseLine delimiter tw line).length
    · have hd : decide ((CSVParser.parseLine delimiter tw line).length ≤ mc) = false := by
        simp
        omega
      simp only [CSVParser.csvLoop, if_pos hw, List.map_cons, List.filter_cons, hd,
        Bool.false_eq_true, if_false]
      exact ih
    · have hd : decide ((CSVParser.parseLine delimiter tw line).length ≤ mc) = true := by
        simp
        omega
      simp only [CSVParser.csvLoop, if_neg hw, List.map_cons, List.filter_cons, hd, if_true]
      rw [ih]

theorem csvLoop_err_mem (delimiter : Char) (tw : Bool) (mc : Nat) :
    ∀ (numbered : List (Nat × Str)) (i : Nat) (line : Str),
      (i, line) ∈ numbered → mc < (CSVParser.parseLine delimiter tw line).length →
      (⟨i + 1, ErrCode.COLUMN_LIMIT_EXCEEDED⟩ : ParseErr) ∈
        (CSVParser.csvLoop delimiter tw mc numbered).2 := by
  intro numbered
  induction numbered with
  | nil => intro i line h _; simp at h
  | cons p rest ih =>
    intro i line hmem hw
    obtain ⟨a, b⟩ := p
    rcases List.mem_cons.mp hmem with heq | htail
    · obtain ⟨rfl, rfl⟩ := Prod.mk.injEq i line a b ▸ heq
      simp only [CSVParser.csvLoop, if_pos hw]
      exact List.mem_cons_self _ _
    · simp only [CSVParser.csvLoop]
      split
      · exact List.mem_cons_of_mem _ (ih i line htail hw)
      · exact ih i line htail hw

theorem mdLoop_fst (tw : Bool) (mr mc : Nat) (sep : Option Nat) :
    ∀ (numbered : List (Nat × Str)) (count : Nat),
      (MarkdownParser.mdLoop tw mr mc sep numbered count).1 =
        (((numbered.filter
            (fun p => decide (sep ≠ some p.1) && MarkdownParser.isTableRow p.2)).map
            (fun p => (MarkdownParser.parseTableRowWithFormatting p.2 tw).1)).filter
          (fun row => decide (row.length ≤ mc))).take (mr - count) := by
  intro numbered
  induction numbered with
  | nil => intro count; simp [MarkdownParser.mdLoop]
  | cons p rest ih =>
    intro count
    obtain ⟨i, line⟩ := p
    by_cases hc : mr ≤ count
    · have h0 : mr - count = 0 := by omega
      simp only [MarkdownParser.mdLoop, if_pos hc, h0, List.take_zero]
    · by_cases hsep : sep = some i
      · have hf : (decide (sep ≠ some i) && MarkdownParser.isTableRow line) = false := by
          simp [hsep]
        simp only [MarkdownParser.mdLoop, if_neg hc, if_pos hsep, List.filter_cons, hf,
          Bool.false_eq_true, if_false]
        exact ih count
      · by_cases hrow : MarkdownParser.isTableRow line = true
        · have hf : (decide (sep ≠ some i) && MarkdownParser.isTableRow line) = true := by
            simp [hsep, hrow]
          have hnr : ¬((!MarkdownParser.isTableRow line) = true) := by simp [hrow]
          by_cases hw : mc < (MarkdownParser.parseTableRowWithFormatting line tw).1.length
          · have hd : decide
                ((MarkdownParser.parseTableRowWithFormatting line tw).1.length ≤ mc) =
                false := by
              simp
              omega
            simp only [MarkdownParser.mdLoop, if_neg hc, if_neg hsep, if_neg hnr,
              if_pos hw, List.filter_cons, hf, if_true, List.map_cons, hd,
              Bool.false_eq_true, if_false]
            exact ih count
          · have hd : decide
                ((MarkdownParser.parseTableRowWithFormatting line tw).1.length ≤ mc) =
                true := by
              simp
              omega
            simp only [MarkdownParser.mdLoop, if_neg hc, if_neg hsep, if_neg hnr,
              if_neg hw, List.filter_cons, hf, if_true, List.map_cons, hd]
            have hsucc : mr - count = (mr - (count + 1)) + 1 := by omega
            rw [hsucc, List.take_succ_cons, ih (count + 1)]
        · have hf : (decide (sep ≠ some i) && MarkdownParser.isTableRow line) = false := by
            simp only [Bool.not_eq_true] at hrow
            simp [hrow]
          have hnr : (!MarkdownParser.isTableRow line) = true := by
            simp only [Bool.not_eq_true] at hrow
            simp [hrow]
          simp only [MarkdownParser.mdLoop, if_neg hc, if_neg hsep, if_pos hnr,
            List.filter_cons, hf, Bool.false_eq_true, if_false]
          exact ih count

theorem mdLoop_err_mem (tw : Bool) (mr mc : Nat) (sep : Option Nat) :
    ∀ (pre : List (Nat × Str)) (i : Nat) (line : Str) (post : List (Nat × Str)) (count : Nat),
      count + (((pre.filter
          (fun p => decide (sep ≠ some p.1) && MarkdownParser.isTableRow p.2)).map
          (fun p => (MarkdownParser.parseTableRowWithFormatting p.2 tw).1)).filter
          (fun row => decide (row.length ≤ mc))).length < mr →
      sep ≠ some i → MarkdownParser.isTableRow line = true →
      mc < (MarkdownParser.parseTableRowWithFormatting line tw).1.length →
      (⟨i + 1, ErrCode.COLUMN_LIMIT_EXCEEDED⟩ : ParseErr) ∈
        (MarkdownParser.mdLoop tw mr mc sep (pre ++ (i, line) :: post) count).2.2 := by
  intro pre
  induction pre with
  | nil =>
    intro i line post count hcount hsep hrow hw
    have hc : ¬ mr ≤ count := by simp at hcount; omega
    have hnr : ¬((!MarkdownParser.isTableRow line) = true) := by simp [hrow]
    simp only [List.nil_append, MarkdownParser.mdLoop, if_neg hc, if_neg hsep, if_neg hnr,
      if_pos hw]
    exact List.mem_cons_self _ _
  | cons p pre' ih =>
    intro i line post count hcount hsep hrow hw
    obtain ⟨a, b⟩ := p
    have hc : ¬ mr ≤ count := by omega
    simp only [List.cons_append, MarkdownParser.mdLoop, if_neg hc]
    by_cases hsa : sep = some a
    · rw [if_pos hsa]
      apply ih i line post count ?_ hsep hrow hw
      have hfeq : (decide (sep ≠ some a) && MarkdownParser.isTableRow b) = false := by
        simp [hsa]
      simp only [List.filter_cons, hfeq, Bool.false_eq_true, if_false] at hcount
      exact hcount
    · rw [if_neg hsa]
      by_cases hrb : MarkdownParser.isTableRow b = true
      · have hnrb : ¬((!MarkdownParser.isTableRow b) = true) := by simp [hrb]
        rw [if_neg hnrb]
        have hfeq : (decide (sep ≠ some a) && MarkdownParser.isTableRow b) = true := by
          simp [hsa, hrb]
        by_cases hwb : mc < (MarkdownParser.parseTableRowWithFormatting b tw).1.length
        · rw [if_pos hwb]
          refine List.mem_cons_of_mem _ ?_
          apply ih i line post count ?_ hsep hrow hw
          have hd : decide
              ((MarkdownParser.parseTableRowWithFormatting b tw).1.length ≤ mc) = false := by
            simp
            omega
          simp only [List.filter_cons, hfeq, if_true, List.map_cons, hd,
            Bool.false_eq_true, if_false] at hcount
          exact hcount
        · rw [if_neg hwb]
          apply ih i line post (count + 1) ?_ hsep hrow hw
          have hd : decide
              ((MarkdownParser.parseTableRowWithFormatting b tw).1.length ≤ mc) = true := by
            simp
            omega
          simp only [List.filter_cons, hfeq, if_true, List.map_cons, hd,
            List.length_cons] at hcount
          omega
      · have hnrb : (!MarkdownParser.isTableRow b) = true := by
          simp only [Bool.not_eq_true] at hrb
          simp [hrb]
        rw [if_pos hnrb]
        apply ih i line post count ?_ hsep hrow hw
        have hfeq : (decide (sep ≠ some a) && MarkdownParser.isTableRow b) = false := by
          simp only [Bool.not_eq_true] at hrb
          simp [hrb]
        simp only [List.filter_cons, hfeq, Bool.false_eq_true, if_false] at hcount
        exact hcount

theorem csvLines_nonblank (text : Str) (h : CSVParser.csvLines text ≠ []) :
    ¬((jsTrim text).isEmpty = true) := by
  intro hcon
  have h0 : jsTrim text = [] := by simpa using hcon
  apply h
  unfold CSVParser.csvLines
  rw [List.filter_eq_nil_iff]
  intro l hl
  simp [jsTrim_line_nil text h0 l hl]

theorem mdLines_nonblank (text : Str) (h : MarkdownParser.mdLines text ≠ []) :
    ¬((jsTrim text).isEmpty = true) := by
  intro hcon
  have h0 : jsTrim text = [] := by simpa using hcon
  exact h (mdLines_nil_of_trim text h0)

/-- Splitting a list at a valid index, with 0-based numbering: the
`enum` decomposes around position `i`. -/
theorem enum_split (l : List Str) (i : Nat) (hi : i < l.length) :
    l.enum = l.enum.take i ++ (i, l.getD i []) :: l.enum.drop (i + 1) := by
  have hi' : i < l.enum.length := by rw [List.enum_length]; exact hi
  have hdrop : l.enum[i] :: l.enum.drop (i + 1) = l.enum.drop i :=
    List.getElem_cons_drop l.enum i hi'
  have hval : l.enum[i] = (i, l.getD i []) := by
    rw [List.getElem_enum]
    rw [List.getD_eq_getElem?_getD, List.getElem?_eq_getElem hi]
    rfl
  rw [← hval, hdrop, List.take_append_drop]

/-- C3: in both the delimited and the Markdown parser, an input line
within the row cap that tokenizes to more than `maxColumns` cells yields a
`COLUMN_LIMIT_EXCEEDED` error for that (1-based) line, and the emitted
data is exactly the in-cap valid rows in order — the over-wide row is
dropped entirely (not truncated) while every other valid row appears. -/
theorem C3_column_limit :
    (∀ (delimiter : Char) (text : Str) (options : ParseOptions) (i : Nat),
      i < (CSVParser.csvLines text).length →
      i < options.maxRows.getD 100 →
      options.maxColumns.getD 20 <
        (CSVParser.parseLine delimiter (options.trimWhitespace.getD true)
          ((CSVParser.csvLines text).getD i [])).length →
      ((⟨i + 1, ErrCode.COLUMN_LIMIT_EXCEEDED⟩ : ParseErr) ∈
          (CSVParser.parse delimiter text options).errors ∧
        (CSVParser.parse delimiter text options).data =
          (((CSVParser.csvLines text).take (options.maxRows.getD 100)).map
            (CSVParser.parseLine delimiter (options.trimWhitespace.getD true))).filter
            (fun row => decide (row.length ≤ options.maxColumns.getD 20)))) ∧
    (∀ (text : Str) (options : ParseOptions) (i : Nat),
      i < (MarkdownParser.mdLines text).length →
      MarkdownParser.mdSepIdx text options ≠ some i →
      MarkdownParser.isTableRow ((MarkdownParser.mdLines text).getD i []) = true →
      (MarkdownParser.mdValidRows text options
        ((MarkdownParser.mdLines text).enum.take i)).length < options.maxRows.getD 100 →
      options.maxColumns.getD 20 <
        (MarkdownParser.parseTableRowWithFormatting ((MarkdownParser.mdLines text).getD i [])
          (options.trimWhitespace.getD true)).1.length →
      ((⟨i + 1, ErrCode.COLUMN_LIMIT_EXCEEDED⟩ : ParseErr) ∈
          (MarkdownParser.parse text options).errors ∧
        (MarkdownParser.parse text options).data =
          (MarkdownParser.mdValidRows text options
            ((MarkdownParser.mdLines text).enum)).take (options.maxRows.getD 100))) := by
  constructor
  · intro delimiter text options i hi himr hover
    have hne : CSVParser.csvLines text ≠ [] := by
      intro hnil
      rw [hnil] at hi
      simp at hi
    have hnb := csvLines_nonblank text hne
    have hmem : (i, (CSVParser.csvLines text).getD i []) ∈
        (CSVParser.csvLines text).enum.take (options.maxRows.getD 100) := by
      have hlen : i < ((CSVParser.csvLines text).enum.take
          (options.maxRows.getD 100)).length := by
        rw [List.length_take, List.enum_length]
        omega
      have hval : ((CSVParser.csvLines text).enum.take (options.maxRows.getD 100))[i] =
          (i, (CSVParser.csvLines text).getD i []) := by
        rw [List.getElem_take]
        rw [List.getElem_enum]
        rw [List.getD_eq_getElem?_getD, List.getElem?_eq_getElem hi]
        rfl
      rw [← hval]
      exact List.getElem_mem hlen
    constructor
    · simp only [CSVParser.parse, if_neg hnb]
      exact csvLoop_err_mem delimiter (options.trimWhitespace.getD true)
        (options.maxColumns.getD 20) _ i _ hmem hover
    · simp only [CSVParser.parse, if_neg hnb]
      rw [csvLoop_fst]
      congr 1
      rw [List.map_take, List.map_take]
      congr 1
      have hmm : ((CSVParser.csvLines text).enum.map Prod.snd).map
          (CSVParser.parseLine delimiter (options.trimWhitespace.getD true)) =
          (CSVParser.csvLines text).enum.map
            (fun p => CSVParser.parseLine delimiter (options.trimWhitespace.getD true) p.2) := by
        rw [List.map_map]
        rfl
      rw [← hmm, List.enum_map_snd]
  · intro text options i hi hsep hrow hcount hover
    have hne : MarkdownParser.mdLines text ≠ [] := by
      intro hnil
      rw [hnil] at hi
      simp at hi
    have hnb := mdLines_nonblank text hne
    constructor
    · simp only [MarkdownParser.parse, if_neg hnb]
      rw [enum_split (MarkdownParser.mdLines text) i hi]
      exact mdLoop_err_mem (options.trimWhitespace.getD true) (options.maxRows.getD 100)
        (options.maxColumns.getD 20) (MarkdownParser.mdSepIdx text options) _ i _ _ 0
        (by simpa [MarkdownParser.mdValidRows] using hcount) hsep hrow hover
    · simp only [MarkdownParser.parse, if_neg hnb]
      rw [mdLoop_fst]
      simp [MarkdownParser.mdValidRows]

/-- C3 (witness): the column-limit policy instantiated on concrete inputs
with a 25-cell CSV row and a 21-cell Markdown row among valid rows. -/
theorem C3_witness :
    (1 < (CSVParser.csvLines
        (str "a,b\nc,c,c,c,c,c,c,c,c,c,c,c,c,c,c,c,c,c,c,c,c,c,c,c,c\nd,e")).length ∧
      1 < ({} : ParseOptions).maxRows.getD 100 ∧
      ({} : ParseOptions).maxColumns.getD 20 <
        (CSVParser.parseLine ',' (({} : ParseOptions).trimWhitespace.getD true)
          ((CSVParser.csvLines
            (str "a,b\nc,c,c,c,c,c,c,c,c,c,c,c,c,c,c,c,c,c,c,c,c,c,c,c,c\nd,e")).getD 1
            [])).length ∧
      (⟨2, ErrCode.COLUMN_LIMIT_EXCEEDED⟩ : ParseErr) ∈
        (CSVParser.parse ','
          (str "a,b\nc,c,c,c,c,c,c,c,c,c,c,c,c,c,c,c,c,c,c,c,c,c,c,c,c\nd,e") {}).errors ∧
      (CSVParser.parse ','
          (str "a,b\nc,c,c,c,c,c,c,c,c,c,c,c,c,c,c,c,c,c,c,c,c,c,c,c,c\nd,e") {}).data =
        [[str "a", str "b"], [str "d", str "e"]]) ∧
    (1 < (MarkdownParser.mdLines
        (str "|p|\n|c|c|c|c|c|c|c|c|c|c|c|c|c|c|c|c|c|c|c|c|c|\n|r|")).length ∧
      MarkdownParser.mdSepIdx
        (str "|p|\n|c|c|c|c|c|c|c|c|c|c|c|c|c|c|c|c|c|c|c|c|c|\n|r|") {} ≠ some 1 ∧
      MarkdownParser.isTableRow ((MarkdownParser.mdLines
        (str "|p|\n|c|c|c|c|c|c|c|c|c|c|c|c|c|c|c|c|c|c|c|c|c|\n|r|")).getD 1 []) = true ∧
      (⟨2, ErrCode.COLUMN_LIMIT_EXCEEDED⟩ : ParseErr) ∈
        (MarkdownParser.parse
          (str "|p|\n|c|c|c|c|c|c|c|c|c|c|c|c|c|c|c|c|c|c|c|c|c|\n|r|") {}).errors ∧
      (MarkdownParser.parse
          (str "|p|\n|c|c|c|c|c|c|c|c|c|c|c|c|c|c|c|c|c|c|c|c|c|\n|r|") {}).data =
        [[str "p"], [str "r"]]) := by
  have hcsv := C3_column_limit.1 ','
    (str "a,b\nc,c,c,c,c,c,c,c,c,c,c,c,c,c,c,c,c,c,c,c,c,c,c,c,c\nd,e") {} 1
    (by decide) (by decide) (by decide)
  have hmd := C3_column_limit.2
    (str "|p|\n|c|c|c|c|c|c|c|c|c|c|c|c|c|c|c|c|c|c|c|c|c|\n|r|") {} 1
    (by decide) (by decide) (by decide) (by decide) (by decide)
  exact ⟨⟨by decide, by decide, by decide, hcsv.1, hcsv.2.trans (by decide)⟩,
    ⟨by decide, by decide, by decide, hmd.1, hmd.2.trans (by decide)⟩⟩

/-- C2 (witness): the header/alignment behaviour instantiated on a
concrete three-column table with separator `|:---|:---:|---:|`. -/
theorem C2_witness :
    ({} : ParseOptions).hasHeader.getD true = true ∧
    2 ≤ (MarkdownParser.mdLines
      (str "| a | b | c |\n|:---|:---:|---:|\n| 1 | 2 | 3 |")).length ∧
    MarkdownParser.isSeparatorLine ((MarkdownParser.mdLines
      (str "| a | b | c |\n|:---|:---:|---:|\n| 1 | 2 | 3 |")).getD 1 []) = true ∧
    (MarkdownParser.parse
      (str "| a | b | c |\n|:---|:---:|---:|\n| 1 | 2 | 3 |") {}).hasHeader = true ∧
    (MarkdownParser.parse (str "| a | b | c |\n|:---|:---:|---:|\n| 1 | 2 | 3 |")
      {}).alignments.getD 0 Alignment.left = Alignment.left ∧
    (MarkdownParser.parse (str "| a | b | c |\n|:---|:---:|---:|\n| 1 | 2 | 3 |")
      {}).alignments.getD 1 Alignment.left = Alignment.center ∧
    (MarkdownParser.parse (str "| a | b | c |\n|:---|:---:|---:|\n| 1 | 2 | 3 |")
      {}).alignments.getD 2 Alignment.left = Alignment.right ∧
    (MarkdownParser.parse
      (str "| a | b | c |\n|:---|:---:|---:|\n| 1 | 2 | 3 |") {}).data =
      (MarkdownParser.mdLoop (({} : ParseOptions).trimWhitespace.getD true)
        (({} : ParseOptions).maxRows.getD 100) (({} : ParseOptions).maxColumns.getD 20) none
        ((MarkdownParser.mdLines
          (str "| a | b | c |\n|:---|:---:|---:|\n| 1 | 2 | 3 |")).enum.filter
          (fun p => p.1 != 1)) 0).1 := by
  have happ := C2_header_separator_alignment
    (str "| a | b | c |\n|:---|:---:|---:|\n| 1 | 2 | 3 |") {} (by decide) (by decide)
  have h := happ.1 (by decide)
  exact ⟨by decide, by decide, by decide, h.1,
    (h.2.2.1 0 (by decide) (by decide)).trans (by decide),
    (h.2.2.1 1 (by decide) (by decide)).trans (by decide),
    (h.2.2.1 2 (by decide) (by decide)).trans (by decide),
    h.2.1⟩

/-- C6 (witness): the amended statement instantiated on a concrete
two-table document separated by prose. -/
theorem C6_witness :
    MarkdownParser.extractMultipleTablesFromText (str "|p|\ny\n|q|") = [str "|p|", str "|q|"] ∧
    (MarkdownParser.parse (str "|p|") {}).data ≠ [] ∧
    (MarkdownParser.parse (str "|q|") {}).data ≠ [] ∧
    ((MarkdownParser.parseMultipleTables (str "|p|\ny\n|q|")
        {}).multipleTablesData.getD []).length = 2 :=
  ⟨by decide, by decide, by decide,
   (C6_amended_two_tables (str "|p|\ny\n|q|") {} (str "|p|") (str "|q|")
      (by decide) (by decide) (by decide)).2⟩

end TextToTable
